import Mathlib

/-!
Slice bound resolution: `HandleSliceOpParams` of `src/Dialect/ONNX/ONNXShapeHelper.cpp`.

A shallow embedding of the ONNX `Slice` shape helper.  The helper reads the
`starts`, `ends`, `steps` and `axes` operands of a slice operation and the
static shape of the sliced tensor, and fills four per-dimension vectors of
index expressions: resolved start, end, step and output size.

The index-expression class (`IndexExpr`) and its context factories live in
files that are not part of the sources at hand; they are modelled from the
written specification and every such definition says so in its doc comment.
The control flow of `HandleSliceOpParams` itself is transcribed from the C++.
The `DebugPrint` calls have no effect on the results and are left out.  The
result vectors, which the C++ receives by reference, are an argument and a
component of the returned pair.
-/

namespace OnnxSlice

/-! ## Machine integers -/

/-- Two's complement reduction of an integer to the signed 64-bit range. -/
def wrap64 (x : Int) : Int := (x + 2 ^ 63) % 2 ^ 64 - 2 ^ 63

/-- Membership in the signed 64-bit range, the value range of an `int64_t`. -/
def isInt64 (x : Int) : Prop := -(2 ^ 63) ≤ x ∧ x < 2 ^ 63

instance (x : Int) : Decidable (isInt64 x) := by
  unfold isInt64; exact inferInstance

/-- The constant `std::numeric_limits<int32_t>::min()` widened to 64 bits. -/
def negInf : Int := -2147483648

/-- The constant `std::numeric_limits<int32_t>::max()` widened to 64 bits. -/
def posInf : Int := 2147483647

/-! ## Index expressions -/

/-- Signed comparison predicates (`CmpIPredicate`) used by the resolver. -/
inductive CmpIPredicate where
  | slt
  | sle
  | sgt
  | sge
  deriving DecidableEq, Repr

/-- Evaluation of a signed comparison on two integers. -/
def CmpIPredicate.eval : CmpIPredicate → Int → Int → Bool
  | .slt, a, b => decide (a < b)
  | .sle, a, b => decide (a ≤ b)
  | .sgt, a, b => decide (a > b)
  | .sge, a, b => decide (a ≥ b)

/-- Modelled from the spec: the `IndexExpr` value type, whose class is declared
outside the sources at hand.  The spec gives three states: `Undefined`,
`Literal` and `Symbol`.  The symbol state is kept as an expression tree: the
two leaf symbols are an element of a run-time operand array and a run-time
dimension of the sliced tensor, the remaining constructors are the deferred
forms of the algebraic operations. -/
inductive IndexExpr where
  | Undefined
  | Literal (value : Int)
  | SymbolArrayElem (array : Nat) (i : Nat)
  | SymbolDim (i : Nat)
  | DeferredAdd (a b : IndexExpr)
  | DeferredSub (a b : IndexExpr)
  | DeferredSelect (c : IndexExpr) (p : CmpIPredicate) (pivot : Int) (t f : IndexExpr)
  | DeferredClamp (v lo hi : IndexExpr)
  | DeferredCeilDiv (a b : IndexExpr)
  deriving DecidableEq, Repr

namespace IndexExpr

/-- Modelled from the spec: `IsUndefined()`, true in the `Undefined` state only. -/
def IsUndefined : IndexExpr → Bool
  | Undefined => true
  | _ => false

/-- Modelled from the spec: `IsLiteral()`, true in the `Literal` state only. -/
def IsLiteral : IndexExpr → Bool
  | Literal _ => true
  | _ => false

/-- Modelled from the spec: `GetLiteral()`, meaningful when `IsLiteral()` holds
(the value 0 stands for the other states, which the resolver never queries). -/
def GetLiteral : IndexExpr → Int
  | Literal v => v
  | _ => 0

/-- Modelled from the spec: `Add(a, b)`, literal arithmetic with native 64-bit
wraparound when both operands are literal, a deferred sum otherwise. -/
def Add : IndexExpr → IndexExpr → IndexExpr
  | Literal a, Literal b => Literal (wrap64 (a + b))
  | a, b => DeferredAdd a b

/-- Modelled from the spec: `Sub(a, b)`, literal arithmetic with native 64-bit
wraparound when both operands are literal, a deferred difference otherwise. -/
def Sub : IndexExpr → IndexExpr → IndexExpr
  | Literal a, Literal b => Literal (wrap64 (a - b))
  | a, b => DeferredSub a b

/-- Modelled from the spec: `Select(cmpOperand, predicate, pivotConstant,
whenTrue, whenFalse)`.  A literal compared operand folds to the branch that
applies; any other compared operand gives a deferred conditional. -/
def Select (c : IndexExpr) (p : CmpIPredicate) (pivot : Int) (t f : IndexExpr) : IndexExpr :=
  match c with
  | Literal v => if p.eval v pivot then t else f
  | _ => DeferredSelect c p pivot t f

/-- Integer clamping: the value is first raised to the lower bound and then
capped at the upper bound (the two orders agree whenever `lo ≤ hi`). -/
def clampInt (v lo hi : Int) : Int := min (max v lo) hi

/-- Modelled from the spec: `Clamp(value, lowerBound, upperBound)`, folded when
all three operands are literal and deferred otherwise. -/
def Clamp : IndexExpr → IndexExpr → IndexExpr → IndexExpr
  | Literal v, Literal lo, Literal hi => Literal (clampInt v lo hi)
  | v, lo, hi => DeferredClamp v lo hi

/-- Modelled from the spec: `AssignIf(testOperand, predicate, pivotConstant,
replacement)` as a pure function of the receiver `recv`: the replacement when
the test holds, the prior value otherwise, and a deferred conditional over the
two when the test operand is not literal. -/
def AssignIf (recv test : IndexExpr) (p : CmpIPredicate) (pivot : Int)
    (replacement : IndexExpr) : IndexExpr :=
  Select test p pivot replacement recv

/-- Exact integer ceiling division, `⌈a / b⌉`, for a non-zero divisor, written
with the Euclidean integer division of Lean (which rounds down for a positive
divisor and up for a negative one). -/
def ceilDivInt (a b : Int) : Int := if 0 < b then -((-a) / b) else a / b

/-- Modelled from the spec: `CeilDivBy(divisor)` as a pure function of the
receiver: exact ceiling division on literals (kept in the 64-bit range),
deferred otherwise. -/
def CeilDivBy : IndexExpr → IndexExpr → IndexExpr
  | Literal a, Literal b => Literal (wrap64 (ceilDivInt a b))
  | a, b => DeferredCeilDiv a b

end IndexExpr

open IndexExpr

/-! ## Operands and context factories -/

/-- An operand of the slice operation that carries a one-dimensional integer
array: absent (`NoneType`), a compile-time constant, or a run-time value.  A
run-time value records whether its type lets single elements be read. -/
inductive ArrayOperand where
  | none
  | constant (vals : List Int)
  | runtime (handle : Nat) (readable : Bool)
  deriving DecidableEq, Repr

/-- The operands seen through `ONNXSliceOpAdaptor`, with the static shape of
`data` (a negative entry marks a dimension unknown at compile time). -/
structure ONNXSliceOp where
  dataShape : List Int
  starts : ArrayOperand
  ends : ArrayOperand
  steps : ArrayOperand
  axes : ArrayOperand
  deriving DecidableEq, Repr

/-- Modelled from the spec: `CreateLiteralIndex`, a literal index expression. -/
def CreateLiteralIndex (v : Int) : IndexExpr := Literal v

/-- Modelled from the spec: `CreateSymbolIndexFromArrayAtIndex(op, array, i)`,
declared outside the sources at hand.  A constant array gives the literal at
position `i`, a readable run-time array gives a symbol, and a position that
cannot be resolved gives `Undefined`. -/
def CreateSymbolIndexFromArrayAtIndex (array : ArrayOperand) (i : Nat) : IndexExpr :=
  match array with
  | .none => Undefined
  | .constant vals =>
    match vals.get? i with
    | some v => Literal v
    | Option.none => Undefined
  | .runtime h readable => if readable then SymbolArrayElem h i else Undefined

/-- Modelled from the spec: the overload of `CreateSymbolIndexFromArrayAtIndex`
with a default literal, used when the operand array is absent. -/
def CreateSymbolIndexFromArrayAtIndexDefault (array : ArrayOperand) (i : Nat)
    (defaultLiteral : Int) : IndexExpr :=
  match array with
  | .none => Literal defaultLiteral
  | _ => CreateSymbolIndexFromArrayAtIndex array i

/-- Modelled from the spec: `CreateDimIndexFromMemref(data, dataShape, i)`,
declared outside the sources at hand: a literal when the shape is statically
known at dimension `i`, a symbol otherwise. -/
def CreateDimIndexFromMemref (dataShape : List Int) (i : Nat) : IndexExpr :=
  match dataShape.get? i with
  | some d => if 0 ≤ d then Literal d else SymbolDim i
  | Option.none => Undefined

/-! ## The resolver -/

/-- Outcome of the helper (`LogicalResult`), with the emitted diagnostic. -/
inductive LogicalResult where
  | success
  | failure (msg : String)
  deriving DecidableEq, Repr

/-- The four result vectors the caller passes by reference. -/
structure SliceResults where
  startIndices : List IndexExpr
  endIndices : List IndexExpr
  stepIndices : List IndexExpr
  outputDims : List IndexExpr
  deriving DecidableEq, Repr

/-- The method `SmallVector::resize`: keeps the first `n` entries and pads
with default-constructed (`Undefined`) index expressions. -/
def resize (v : List IndexExpr) (n : Nat) : List IndexExpr :=
  v.take n ++ List.replicate (n - v.length) Undefined

/-- The four `resize` calls of the helper (source lines 74-77). -/
def resizeResults (r : SliceResults) (n : Nat) : SliceResults :=
  { startIndices := resize r.startIndices n
    stepIndices := resize r.stepIndices n
    endIndices := resize r.endIndices n
    outputDims := resize r.outputDims n }

/-- Reading of the constant `axes` values (source lines 60-67): a negative
axis gets `dataRank` added once; the first value out of `[0, dataRank)` after
that aborts with the out-of-bound diagnostic. -/
def readAxes (dataRank : Nat) : List Int → Except String (List Int)
  | [] => .ok []
  | value :: rest =>
    let axis := if value < 0 then value + dataRank else value
    if ¬ (axis ≥ 0 ∧ axis < dataRank) then
      .error "Axes contains an out-of-bound index"
    else
      match readAxes dataRank rest with
      | .ok tail => .ok (axis :: tail)
      | .error msg => .error msg

/-- The local `axesIntLit` of the helper (source lines 51-70). -/
def axesIntLit (op : ONNXSliceOp) : Except String (List Int) :=
  match op.axes with
  | .none => .ok ((List.range op.dataShape.length).map Int.ofNat)
  | .constant vals => readAxes op.dataShape.length vals
  | .runtime _ _ => .error "Axes must be known at compile time"

/-- The local `sliceRank` of the helper (source line 71): the number of axes
read, which exists once the axes could be read. -/
def sliceRank (op : ONNXSliceOp) : Nat :=
  match axesIntLit op with
  | .ok axes => axes.length
  | .error _ => 0

/-- The three expressions computed for one sliced axis. -/
structure AxisBounds where
  startFinal : IndexExpr
  endFinal : IndexExpr
  dimOutputFinal : IndexExpr
  deriving DecidableEq, Repr

/-- The bound computations of one loop iteration (source lines 110-143). -/
def sliceAxis (startInput endInput stepInput dimInput : IndexExpr) : AxisBounds :=
  -- Calculation for start: start < 0 ? start + dim : start.
  let startPlusDim := Add startInput dimInput
  let startPos := Select startInput .slt 0 startPlusDim startInput
  -- Step < 0: clamp(0, start, dim - 1) else clamp(0, start, dim)
  let dimMinOneInput := Sub dimInput (Literal 1)
  let neg := Clamp startPos (Literal 0) dimMinOneInput
  let pos := Clamp startPos (Literal 0) dimInput
  let startFinal := Select stepInput .slt 0 neg pos
  -- Calculation for end: end < 0 -> end + dim else -> end;
  -- special case end <= -inf -> -1; end >= inf -> dim.
  let endPlusDim := Add endInput dimInput
  let endPos := Select endInput .slt 0 endPlusDim endInput
  let endPos := AssignIf endPos endInput .sle negInf (Literal (-1))
  let endPos := AssignIf endPos endInput .sge posInf dimInput
  -- End: step < 0: clamp(-1, end, dim); step > 0: clamp(0, end, dim)
  let neg := Clamp endPos (Literal (-1)) dimInput
  let pos := Clamp endPos (Literal 0) dimInput
  let endFinal := Select stepInput .slt 0 neg pos
  -- Calculation for output size.
  let dimOutputFinal := CeilDivBy (Sub endFinal startFinal) stepInput
  let dimOutputFinal := AssignIf dimOutputFinal dimOutputFinal .slt 0 (Literal 0)
  { startFinal := startFinal, endFinal := endFinal, dimOutputFinal := dimOutputFinal }

/-- One iteration of the per-axis loop (source lines 81-149): slot `i` of the
slice parameters, logical dimension `ii`. -/
def sliceSlot (op : ONNXSliceOp) (i : Nat) (ii : Int) (r : SliceResults) :
    LogicalResult × SliceResults :=
  let startInput := CreateSymbolIndexFromArrayAtIndex op.starts i
  if startInput.IsUndefined then
    (.failure "start input parameter could not be processed", r)
  else
    let endInput := CreateSymbolIndexFromArrayAtIndex op.ends i
    if endInput.IsUndefined then
      (.failure "end input parameter could not be processed", r)
    else
      let stepInput := CreateSymbolIndexFromArrayAtIndexDefault op.steps i 1
      if stepInput.IsUndefined then
        (.failure "step input parameter could not be processed", r)
      else if stepInput.IsLiteral && stepInput.GetLiteral == 0 then
        (.failure "step input parameter cannot be zero", r)
      else
        let dimInput := CreateDimIndexFromMemref op.dataShape ii.toNat
        let b := sliceAxis startInput endInput stepInput dimInput
        (.success,
          { startIndices := r.startIndices.set ii.toNat b.startFinal
            stepIndices := r.stepIndices.set ii.toNat stepInput
            endIndices := r.endIndices.set ii.toNat b.endFinal
            outputDims := r.outputDims.set ii.toNat b.dimOutputFinal })

/-- The per-axis loop (source line 80), started at slot `i` over the axes
that remain; it stops at the first failing slot. -/
def sliceLoop (op : ONNXSliceOp) : Nat → List Int → SliceResults →
    LogicalResult × SliceResults
  | _, [], r => (.success, r)
  | i, ii :: rest, r =>
    match sliceSlot op i ii r with
    | (.success, r1) => sliceLoop op (i + 1) rest r1
    | (.failure msg, r1) => (.failure msg, r1)

/-- One iteration of the defaulting loop (source lines 156-164). -/
def defaultSlot (op : ONNXSliceOp) (r : SliceResults) (i : Nat) : SliceResults :=
  if (r.stepIndices.getD i Undefined).IsUndefined then
    let dimInput := CreateDimIndexFromMemref op.dataShape i
    { startIndices := r.startIndices.set i (CreateLiteralIndex 0)
      stepIndices := r.stepIndices.set i (CreateLiteralIndex 1)
      endIndices := r.endIndices.set i dimInput
      outputDims := r.outputDims.set i dimInput }
  else r

/-- The defaulting loop over all dimensions (source line 155). -/
def defaultPass (op : ONNXSliceOp) (r : SliceResults) : SliceResults :=
  (List.range op.dataShape.length).foldl (defaultSlot op) r

/-- The helper `HandleSliceOpParams`: the outcome together with the contents
of the four result vectors when it returns. -/
def HandleSliceOpParams (op : ONNXSliceOp) (r : SliceResults) :
    LogicalResult × SliceResults :=
  let dataRank := op.dataShape.length
  match axesIntLit op with
  | .error msg => (.failure msg, r)
  | .ok axes =>
    -- Initialize context and results (start & output)
    let r0 := resizeResults r dataRank
    match sliceLoop op 0 axes r0 with
    | (.failure msg, r1) => (.failure msg, r1)
    | (.success, r1) => (.success, defaultPass op r1)

/-- The slice dimension record of logical dimension `j`: the entries of the
four result vectors at position `j`, in the order start, end, step, output
size. -/
def SliceResults.record (r : SliceResults) (j : Nat) :
    Option IndexExpr × Option IndexExpr × Option IndexExpr × Option IndexExpr :=
  (r.startIndices[j]?, r.endIndices[j]?, r.stepIndices[j]?, r.outputDims[j]?)

/-- The record that slot `i` of the slice parameters saves for logical
dimension `ii` (source lines 146-149), in the order start, end, step, output
size. -/
def slotRecord (op : ONNXSliceOp) (i ii : Nat) :
    Option IndexExpr × Option IndexExpr × Option IndexExpr × Option IndexExpr :=
  let startInput := CreateSymbolIndexFromArrayAtIndex op.starts i
  let endInput := CreateSymbolIndexFromArrayAtIndex op.ends i
  let stepInput := CreateSymbolIndexFromArrayAtIndexDefault op.steps i 1
  let dimInput := CreateDimIndexFromMemref op.dataShape ii
  let b := sliceAxis startInput endInput stepInput dimInput
  (some b.startFinal, some b.endFinal, some stepInput, some b.dimOutputFinal)

/-- The record that the defaulting loop saves for an untouched logical
dimension `i` (source lines 159-163), in the order start, end, step, output
size. -/
def defaultRecord (op : ONNXSliceOp) (i : Nat) :
    Option IndexExpr × Option IndexExpr × Option IndexExpr × Option IndexExpr :=
  let dimInput := CreateDimIndexFromMemref op.dataShape i
  (some (CreateLiteralIndex 0), some dimInput, some (CreateLiteralIndex 1), some dimInput)

/-- The four result vectors all have `n` entries. -/
def SliceResults.sized (r : SliceResults) (n : Nat) : Prop :=
  r.startIndices.length = n ∧ r.endIndices.length = n ∧ r.stepIndices.length = n ∧
    r.outputDims.length = n

/-- The empty result vectors of a caller that has just constructed them. -/
def emptyResults : SliceResults :=
  { startIndices := [], endIndices := [], stepIndices := [], outputDims := [] }

/-! ## Reference semantics of strided slicing -/

/-- Reference adjustment of one slice bound against a sequence of the given
length, as Python and NumPy do it for `slice.indices`. -/
def numpyAdjust (length step idx : Int) : Int :=
  if idx < 0 then
    if idx + length < 0 then (if step < 0 then -1 else 0) else idx + length
  else if idx ≥ length then (if step < 0 then length - 1 else length)
  else idx

/-- Reference count of the elements that `[start:stop:step]` selects from a
sequence of the given length (the length of `range(*slice.indices(length))`). -/
def numpySliceLength (length start stop step : Int) : Int :=
  let s := numpyAdjust length step start
  let e := numpyAdjust length step stop
  if step < 0 then
    if e < s then (s - e - 1) / (-step) + 1 else 0
  else
    if s < e then (e - s - 1) / step + 1 else 0

/-! ## Folding of the index-expression algebra on literals -/

theorem wrap64_of_isInt64 {x : Int} (h : isInt64 x) : wrap64 x = x := by
  unfold isInt64 at h
  unfold wrap64
  omega

theorem Add_literal (a b : Int) :
    IndexExpr.Add (Literal a) (Literal b) = Literal (wrap64 (a + b)) := rfl

theorem Sub_literal (a b : Int) :
    IndexExpr.Sub (Literal a) (Literal b) = Literal (wrap64 (a - b)) := rfl

theorem Clamp_literal (v lo hi : Int) :
    IndexExpr.Clamp (Literal v) (Literal lo) (Literal hi) = Literal (clampInt v lo hi) := rfl

theorem CeilDivBy_literal (a b : Int) :
    IndexExpr.CeilDivBy (Literal a) (Literal b) = Literal (wrap64 (ceilDivInt a b)) := rfl

theorem Select_literal (v : Int) (p : CmpIPredicate) (pivot : Int) (t f : IndexExpr) :
    IndexExpr.Select (Literal v) p pivot t f = if p.eval v pivot then t else f := rfl

/-- The integer ceiling division of the model is the ceiling of the rational
quotient. -/
theorem ceilDivInt_eq_ceil (a b : Int) (hb : b ≠ 0) :
    ceilDivInt a b = ⌈(a : ℚ) / (b : ℚ)⌉ := by
  symm
  rw [Int.ceil_eq_iff]
  unfold ceilDivInt
  rcases lt_or_gt_of_ne hb with h | h
  · have hbq : (b : ℚ) < 0 := by exact_mod_cast h
    have h1 := Int.ediv_add_emod a b
    have h2 := Int.emod_nonneg a hb
    have h3 : a % b < -b := by
      have := Int.emod_lt_of_pos a (show 0 < -b by omega)
      rwa [Int.emod_neg] at this
    rw [if_neg (by omega)]
    constructor
    · rw [lt_div_iff_of_neg hbq]
      have : a < (a / b - 1) * b := by nlinarith
      exact_mod_cast this
    · rw [div_le_iff_of_neg hbq]
      have : (a / b) * b ≤ a := by nlinarith
      exact_mod_cast this
  · have hbq : (0 : ℚ) < b := by exact_mod_cast h
    have h1 := Int.ediv_add_emod (-a) b
    have h2 := Int.emod_nonneg (-a) hb
    have h3 := Int.emod_lt_of_pos (-a) h
    rw [if_pos h]
    constructor
    · rw [lt_div_iff₀ hbq]
      have : (-(-a / b) - 1) * b < a := by nlinarith
      exact_mod_cast this
    · rw [div_le_iff₀ hbq]
      have : a ≤ (-(-a / b)) * b := by nlinarith
      exact_mod_cast this

/-- Size bound of a ceiling quotient: it is no larger in absolute value than
the dividend. -/
theorem ceilDivInt_abs_le (a b : Int) : |ceilDivInt a b| ≤ |a| := by
  unfold ceilDivInt
  split
  · rw [abs_neg]
    have := Int.natAbs_div_le_natAbs (-a) b
    rw [Int.abs_eq_natAbs, Int.abs_eq_natAbs]
    have h2 : (-a).natAbs = a.natAbs := Int.natAbs_neg a
    omega
  · have := Int.natAbs_div_le_natAbs a b
    rw [Int.abs_eq_natAbs, Int.abs_eq_natAbs]
    omega

/-! ## One sliced axis with literal operands -/

theorem sliceAxis_startFinal_wrap (s e st d : Int) :
    (sliceAxis (Literal s) (Literal e) (Literal st) (Literal d)).startFinal =
      Literal (clampInt (if s < 0 then wrap64 (s + d) else s) 0
        (if st < 0 then wrap64 (d - 1) else d)) := by
  simp only [sliceAxis, Add_literal, Sub_literal, Select_literal, Clamp_literal,
    CmpIPredicate.eval]
  by_cases hs : s < 0 <;> by_cases hst : st < 0 <;> simp [hs, hst, Clamp_literal]

theorem sliceAxis_endFinal_wrap (s e st d : Int) :
    (sliceAxis (Literal s) (Literal e) (Literal st) (Literal d)).endFinal =
      Literal (clampInt
        (if e ≥ posInf then d else if e ≤ negInf then -1
          else if e < 0 then wrap64 (e + d) else e)
        (if st < 0 then -1 else 0) d) := by
  simp only [sliceAxis, AssignIf, Add_literal, Sub_literal, Select_literal, Clamp_literal,
    CmpIPredicate.eval]
  by_cases he : e < 0 <;> by_cases hst : st < 0 <;> by_cases h1 : e ≥ posInf <;>
    by_cases h2 : e ≤ negInf <;> simp [he, hst, h1, h2, Clamp_literal]

/-- Resolved start of an axis with literal start, step and dimension size. -/
theorem sliceAxis_startFinal_literal (s e st d : Int)
    (hs : isInt64 s) (hd : isInt64 d) (hd0 : 0 ≤ d) :
    (sliceAxis (Literal s) (Literal e) (Literal st) (Literal d)).startFinal =
      Literal (min (max (if s < 0 then s + d else s) 0) (if st < 0 then d - 1 else d)) := by
  rw [sliceAxis_startFinal_wrap]
  have h1 : s < 0 → wrap64 (s + d) = s + d := fun h =>
    wrap64_of_isInt64 (by unfold isInt64 at *; omega)
  have h2 : wrap64 (d - 1) = d - 1 := wrap64_of_isInt64 (by unfold isInt64 at *; omega)
  unfold clampInt
  by_cases h : s < 0
  · simp only [h, if_true, h1 h, h2]
  · simp only [h, if_false, h2]

/-- Resolved end of an axis with literal end, step and dimension size. -/
theorem sliceAxis_endFinal_literal (s e st d : Int)
    (he : isInt64 e) (hd : isInt64 d) (hd0 : 0 ≤ d) :
    (sliceAxis (Literal s) (Literal e) (Literal st) (Literal d)).endFinal =
      Literal (min (max
        (if e ≤ -2147483648 then -1 else if e ≥ 2147483647 then d
          else if e < 0 then e + d else e)
        (if st < 0 then -1 else 0)) d) := by
  rw [sliceAxis_endFinal_wrap]
  have h1 : e < 0 → wrap64 (e + d) = e + d := fun h =>
    wrap64_of_isInt64 (by unfold isInt64 at *; omega)
  unfold clampInt posInf negInf
  by_cases h : e < 0
  · by_cases h2 : e ≤ -2147483648
    · have h3 : ¬ e ≥ 2147483647 := by omega
      simp only [h2, h3, if_true, if_false]
    · have h3 : ¬ e ≥ 2147483647 := by omega
      simp only [h, h2, h3, if_true, if_false, h1 h]
  · have h2 : ¬ e ≤ -2147483648 := by omega
    simp only [h, h2, if_false]

theorem sliceAxis_dimOutputFinal_eq (a b c d : IndexExpr) :
    (sliceAxis a b c d).dimOutputFinal =
      IndexExpr.AssignIf
        (IndexExpr.CeilDivBy (IndexExpr.Sub (sliceAxis a b c d).endFinal
          (sliceAxis a b c d).startFinal) c)
        (IndexExpr.CeilDivBy (IndexExpr.Sub (sliceAxis a b c d).endFinal
          (sliceAxis a b c d).startFinal) c)
        .slt 0 (Literal 0) := rfl

/-- Output size of an axis whose resolved start and end are the literals `S`
and `E`, when their difference stays clear of the 64-bit limits. -/
theorem sliceAxis_dimOutputFinal_of_literal (a b : IndexExpr) (st d S E : Int)
    (hSE : -(2 ^ 63) < E - S ∧ E - S < 2 ^ 63)
    (hs : (sliceAxis a b (Literal st) (Literal d)).startFinal = Literal S)
    (he : (sliceAxis a b (Literal st) (Literal d)).endFinal = Literal E) :
    (sliceAxis a b (Literal st) (Literal d)).dimOutputFinal =
      Literal (max 0 (ceilDivInt (E - S) st)) := by
  rw [sliceAxis_dimOutputFinal_eq, hs, he, Sub_literal]
  have h1 : wrap64 (E - S) = E - S := wrap64_of_isInt64 (by unfold isInt64 at *; omega)
  have h2 : wrap64 (ceilDivInt (E - S) st) = ceilDivInt (E - S) st := by
    apply wrap64_of_isInt64
    have h := ceilDivInt_abs_le (E - S) st
    have h3 := abs_le.mp (le_trans h (le_refl _))
    have h4 : |E - S| < 2 ^ 63 := by rw [abs_lt]; constructor <;> omega
    unfold isInt64 at *
    constructor <;> omega
  rw [h1, CeilDivBy_literal, h2]
  unfold IndexExpr.AssignIf
  rw [Select_literal]
  simp only [CmpIPredicate.eval]
  by_cases h : ceilDivInt (E - S) st < 0
  · simp [h]; omega
  · simp [h]; omega

/-- The resolved start and end of a literal axis differ by less than the
64-bit limits. -/
theorem literal_bounds_diff (s e st d : Int) (hd : isInt64 d) (hd0 : 0 ≤ d) :
    -(2 ^ 63) <
        min (max
          (if e ≤ -2147483648 then -1 else if e ≥ 2147483647 then d
            else if e < 0 then e + d else e)
          (if st < 0 then -1 else 0)) d -
        min (max (if s < 0 then s + d else s) 0) (if st < 0 then d - 1 else d) ∧
      min (max
          (if e ≤ -2147483648 then -1 else if e ≥ 2147483647 then d
            else if e < 0 then e + d else e)
          (if st < 0 then -1 else 0)) d -
        min (max (if s < 0 then s + d else s) 0) (if st < 0 then d - 1 else d) < 2 ^ 63 := by
  unfold isInt64 at hd
  simp only [min_def, max_def]
  split_ifs <;> constructor <;> omega

/-- Output size of an axis with literal start, end, step and dimension size,
by integer arithmetic. -/
theorem sliceAxis_dimOutputFinal_literal (s e st d : Int)
    (hs : isInt64 s) (he : isInt64 e) (hd : isInt64 d) (hd0 : 0 ≤ d) :
    (sliceAxis (Literal s) (Literal e) (Literal st) (Literal d)).dimOutputFinal =
      Literal (max 0 (ceilDivInt
        (min (max
          (if e ≤ -2147483648 then -1 else if e ≥ 2147483647 then d
            else if e < 0 then e + d else e)
          (if st < 0 then -1 else 0)) d -
        min (max (if s < 0 then s + d else s) 0) (if st < 0 then d - 1 else d)) st)) :=
  sliceAxis_dimOutputFinal_of_literal _ _ st d _ _ (literal_bounds_diff s e st d hd hd0)
    (sliceAxis_startFinal_literal s e st d hs hd hd0)
    (sliceAxis_endFinal_literal s e st d he hd hd0)

/-- The helper on a rank-1 tensor with constant one-element operands and no
`axes`, started from empty result vectors. -/
theorem HandleSliceOpParams_rank1 (s e st d : Int) (hd0 : 0 ≤ d) (hst0 : st ≠ 0) :
    HandleSliceOpParams
        { dataShape := [d], starts := .constant [s], ends := .constant [e],
          steps := .constant [st], axes := .none } emptyResults =
      (.success,
        { startIndices := [(sliceAxis (Literal s) (Literal e) (Literal st) (Literal d)).startFinal]
          endIndices := [(sliceAxis (Literal s) (Literal e) (Literal st) (Literal d)).endFinal]
          stepIndices := [Literal st]
          outputDims :=
            [(sliceAxis (Literal s) (Literal e) (Literal st) (Literal d)).dimOutputFinal] }) := by
  simp [HandleSliceOpParams, axesIntLit, sliceLoop, sliceSlot, defaultPass, defaultSlot,
    emptyResults, resizeResults, resize, CreateSymbolIndexFromArrayAtIndex,
    CreateSymbolIndexFromArrayAtIndexDefault, CreateDimIndexFromMemref, IsUndefined, IsLiteral,
    GetLiteral, hd0, hst0, List.range_succ]

/-- The ceiling quotient of an empty or inverted range is not positive. -/
theorem max_ceil_inverted (S E st : Int) (h : (0 < st ∧ E ≤ S) ∨ (st < 0 ∧ S ≤ E)) :
    max 0 ⌈((E - S : Int) : ℚ) / (st : ℚ)⌉ = 0 := by
  apply max_eq_left
  rw [Int.ceil_le]
  rcases h with ⟨h1, h2⟩ | ⟨h1, h2⟩
  · apply div_nonpos_of_nonpos_of_nonneg
    · have : E - S ≤ 0 := by omega
      exact_mod_cast this
    · exact_mod_cast h1.le
  · apply div_nonpos_of_nonneg_of_nonpos
    · have : 0 ≤ E - S := by omega
      exact_mod_cast this
    · exact_mod_cast h1.le

/-- C1. For an axis whose start, end, non-zero step and dimension size are all
literal, the stored output size is `max(0, ⌈(endFinal - startFinal) / step⌉)`
with the exact ceiling of the rational quotient, where `startFinal` and
`endFinal` are the resolved start and end; it is never negative, and it is 0
whenever the resolved range is empty or inverted for the sign of the step.
The last part shows the value as `HandleSliceOpParams` stores it for a rank-1
tensor. -/
theorem C1_output_size_exact_ceiling (s e st d : Int)
    (hs : isInt64 s) (he : isInt64 e) (hd : isInt64 d) (hd0 : 0 ≤ d) (hst0 : st ≠ 0) :
    ∃ S E : Int,
      (sliceAxis (Literal s) (Literal e) (Literal st) (Literal d)).startFinal = Literal S ∧
      (sliceAxis (Literal s) (Literal e) (Literal st) (Literal d)).endFinal = Literal E ∧
      (sliceAxis (Literal s) (Literal e) (Literal st) (Literal d)).dimOutputFinal =
        Literal (max 0 ⌈((E - S : Int) : ℚ) / (st : ℚ)⌉) ∧
      0 ≤ max 0 ⌈((E - S : Int) : ℚ) / (st : ℚ)⌉ ∧
      (((0 < st ∧ E ≤ S) ∨ (st < 0 ∧ S ≤ E)) →
        (sliceAxis (Literal s) (Literal e) (Literal st) (Literal d)).dimOutputFinal =
          Literal 0) ∧
      (HandleSliceOpParams
          { dataShape := [d], starts := .constant [s], ends := .constant [e],
            steps := .constant [st], axes := .none } emptyResults).2.outputDims =
        [Literal (max 0 ⌈((E - S : Int) : ℚ) / (st : ℚ)⌉)] := by
  have hS := sliceAxis_startFinal_literal s e st d hs hd hd0
  have hE := sliceAxis_endFinal_literal s e st d he hd hd0
  have hO := sliceAxis_dimOutputFinal_literal s e st d hs he hd hd0
  rw [ceilDivInt_eq_ceil _ _ hst0] at hO
  refine ⟨_, _, hS, hE, hO, le_max_left _ _, ?_, ?_⟩
  · intro h
    rw [hO, max_ceil_inverted _ _ st h]
  · rw [HandleSliceOpParams_rank1 s e st d hd0 hst0, hO]

/-- C1 at the data of the zero-size collapse: dimension size 10, start 8,
end 2, step 1 give the output size 0. -/
theorem C1_output_size_exact_ceiling_witness :
    (sliceAxis (Literal 8) (Literal 2) (Literal 1) (Literal 10)).dimOutputFinal = Literal 0 ∧
    (HandleSliceOpParams
        { dataShape := [10], starts := .constant [8], ends := .constant [2],
          steps := .constant [1], axes := .none } emptyResults).2.outputDims = [Literal 0] := by
  obtain ⟨S, E, hS, hE, hO, _, hz, hH⟩ :=
    C1_output_size_exact_ceiling 8 2 1 10 (by decide) (by decide) (by decide) (by decide)
      (by decide)
  have hS8 : S = 8 := by
    have h : (sliceAxis (Literal 8) (Literal 2) (Literal 1) (Literal 10)).startFinal =
        Literal 8 := by decide
    rw [h] at hS
    exact (Literal.inj hS).symm
  have hE2 : E = 2 := by
    have h : (sliceAxis (Literal 8) (Literal 2) (Literal 1) (Literal 10)).endFinal =
        Literal 2 := by decide
    rw [h] at hE
    exact (Literal.inj hE).symm
  subst hS8 hE2
  have h0 := hz (Or.inl ⟨by decide, by decide⟩)
  refine ⟨h0, ?_⟩
  rw [hH, ← hO, h0]

/-- C2. For an axis with literal start `s`, literal step and literal dimension
size `d`, the resolved start is `clamp(s < 0 ? s + d : s, 0, hi)` with
`hi = d - 1` for a negative step and `hi = d` otherwise; for `-d ≤ s < 0` and a
positive step it is `s + d`. -/
theorem C2_resolved_start (startInput endInput : Int) (stepInput dimInput : Int)
    (hs : isInt64 startInput) (hd : isInt64 dimInput) (hd0 : 0 ≤ dimInput) :
    (sliceAxis (Literal startInput) (Literal endInput) (Literal stepInput)
        (Literal dimInput)).startFinal =
      Literal (min (max (if startInput < 0 then startInput + dimInput else startInput) 0)
        (if stepInput < 0 then dimInput - 1 else dimInput)) ∧
    (-dimInput ≤ startInput → startInput < 0 → 0 < stepInput →
      (sliceAxis (Literal startInput) (Literal endInput) (Literal stepInput)
        (Literal dimInput)).startFinal = Literal (startInput + dimInput)) := by
  have h := sliceAxis_startFinal_literal startInput endInput stepInput dimInput hs hd hd0
  refine ⟨h, ?_⟩
  intro h1 h2 h3
  rw [h]
  congr 1
  have h4 : ¬ stepInput < 0 := by omega
  simp only [h2, h4, if_true, if_false]
  rw [max_eq_left (by omega), min_eq_left (by omega)]

/-- C2 at the data of the negative-start wraparound: dimension size 10 and
start -3 give the resolved start 7. -/
theorem C2_resolved_start_witness :
    (sliceAxis (Literal (-3)) (Literal 10) (Literal 1) (Literal 10)).startFinal = Literal 7 :=
  (C2_resolved_start (-3) 10 1 10 (by decide) (by decide) (by decide)).2
    (by decide) (by decide) (by decide)

/-- C3. For an axis with literal end `e`, literal step and literal dimension
size `d`, the resolved end is `clamp(p, lo, d)` with `lo = -1` for a negative
step and `lo = 0` otherwise, where `p` is -1 when the original `e` is at most
`INT32_MIN`, `d` when the original `e` is at least `INT32_MAX`, and the
wrapped end `e < 0 ? e + d : e` otherwise. -/
theorem C3_resolved_end (startInput endInput : Int) (stepInput dimInput : Int)
    (he : isInt64 endInput) (hd : isInt64 dimInput) (hd0 : 0 ≤ dimInput) :
    (sliceAxis (Literal startInput) (Literal endInput) (Literal stepInput)
        (Literal dimInput)).endFinal =
      Literal (min (max
        (if endInput ≤ -2147483648 then -1 else if endInput ≥ 2147483647 then dimInput
          else if endInput < 0 then endInput + dimInput else endInput)
        (if stepInput < 0 then -1 else 0)) dimInput) :=
  sliceAxis_endFinal_literal startInput endInput stepInput dimInput he hd hd0

/-- C3 at an end equal to `INT32_MIN` on a dimension of size 3000000000: the
test is made on the original end, so the resolved end is 0 for a positive
step, although the wrapped end would be 852516352. -/
theorem C3_resolved_end_witness :
    (sliceAxis (Literal 0) (Literal (-2147483648)) (Literal 1)
        (Literal 3000000000)).endFinal = Literal 0 :=
  C3_resolved_end 0 (-2147483648) 1 3000000000 (by decide) (by decide) (by decide)

/-- Ceiling division by a positive step, clipped at zero, in the form used by
the reference count. -/
theorem max_ceilDivInt_pos (a st : Int) (hst : 0 < st) :
    max 0 (ceilDivInt a st) = if 0 < a then (a - 1) / st + 1 else 0 := by
  unfold ceilDivInt
  rw [if_pos hst]
  have h1 := Int.ediv_add_emod (-a) st
  have h2 := Int.emod_nonneg (-a) (by omega : st ≠ 0)
  have h3 := Int.emod_lt_of_pos (-a) hst
  split_ifs with h
  · have h4 := Int.ediv_add_emod (a - 1) st
    have h5 := Int.emod_nonneg (a - 1) (by omega : st ≠ 0)
    have h6 := Int.emod_lt_of_pos (a - 1) hst
    have h7 : -(-a / st) = (a - 1) / st + 1 := by
      have : ((a - 1) / st + 1 + (-a / st)) * st = st - 1 - (-a) % st - (a - 1) % st := by
        linear_combination h4 + h1
      have h8 : (a - 1) / st + 1 + (-a / st) = 0 := by
        by_contra hne
        rcases lt_or_gt_of_ne hne with hlt | hgt
        · have : ((a - 1) / st + 1 + (-a / st)) * st ≤ -st := by nlinarith
          omega
        · have : ((a - 1) / st + 1 + (-a / st)) * st ≥ st := by nlinarith
          omega
      omega
    rw [h7]
    have h9 : 0 ≤ (a - 1) / st := Int.ediv_nonneg (by omega) (by omega)
    omega
  · have : 0 ≤ -a / st := Int.ediv_nonneg (by omega) (by omega)
    omega

/-- Ceiling division by a negative step, clipped at zero, in the form used by
the reference count. -/
theorem max_ceilDivInt_neg (a st : Int) (hst : st < 0) :
    max 0 (ceilDivInt a st) = if a < 0 then (-a - 1) / (-st) + 1 else 0 := by
  have h := max_ceilDivInt_pos (-a) (-st) (by omega)
  have h2 : ceilDivInt a st = ceilDivInt (-a) (-st) := by
    unfold ceilDivInt
    rw [if_neg (by omega), if_pos (by omega)]
    simp [Int.ediv_neg]
  rw [h2, h]
  by_cases h3 : a < 0
  · rw [if_pos (by omega), if_pos h3]
  · rw [if_neg (by omega), if_neg h3]

/-- C4, refuted as stated: with a negative step and a start below `-d` the
helper clamps the start to 0 where the reference clamps it to -1 (dimension
size 10, start -100, end -100, step -1: output size 1 against 0 elements), and
an end at `INT32_MIN` is saturated even when the dimension is larger than
`INT32_MAX` (dimension size 2147483658, start 0, end -2147483648, step 1:
output size 0 against 10 elements). -/
theorem C4_counterexample :
    ((sliceAxis (Literal (-100)) (Literal (-100)) (Literal (-1)) (Literal 10)).dimOutputFinal =
        Literal 1 ∧
      numpySliceLength 10 (-100) (-100) (-1) = 0) ∧
    ((sliceAxis (Literal 0) (Literal (-2147483648)) (Literal 1)
        (Literal 2147483658)).dimOutputFinal = Literal 0 ∧
      numpySliceLength 2147483658 0 (-2147483648) 1 = 10) :=
  ⟨⟨by rw [sliceAxis_dimOutputFinal_literal _ _ _ _ (by decide) (by decide) (by decide)
        (by decide)]; decide, by decide⟩,
    ⟨by rw [sliceAxis_dimOutputFinal_literal _ _ _ _ (by decide) (by decide) (by decide)
        (by decide)]; decide, by decide⟩⟩

/-- C4, amended. For a literal dimension size `d ≥ 0`, literal start, end and
non-zero step, the output size equals the number of elements the reference
slicing selects, provided that the start is at least `-d` when the step is
negative, and that the dimension is at most `INT32_MAX` or the end lies
strictly between `INT32_MIN` and `INT32_MAX`. -/
theorem C4_output_size_matches_numpy (s e st d : Int)
    (hs : isInt64 s) (he : isInt64 e) (hd : isInt64 d) (hd0 : 0 ≤ d) (hst0 : st ≠ 0)
    (hstart : 0 < st ∨ -d ≤ s)
    (hsat : d ≤ 2147483647 ∨ (-2147483648 < e ∧ e < 2147483647)) :
    (sliceAxis (Literal s) (Literal e) (Literal st) (Literal d)).dimOutputFinal =
      Literal (numpySliceLength d s e st) := by
  rw [sliceAxis_dimOutputFinal_literal s e st d hs he hd hd0]
  congr 1
  unfold numpySliceLength
  rcases lt_or_gt_of_ne hst0 with hneg | hpos
  · have hs' : -d ≤ s := by omega
    simp only [hneg, if_true]
    rw [max_ceilDivInt_neg _ _ hneg]
    have hS : min (max (if s < 0 then s + d else s) 0) (d - 1) = numpyAdjust d st s := by
      unfold numpyAdjust
      simp only [min_def, max_def, hneg, if_true]
      split_ifs <;> omega
    have hE : min (max (if e ≤ -2147483648 then -1 else if e ≥ 2147483647 then d
          else if e < 0 then e + d else e) (-1)) d = numpyAdjust d st e ∨
        (min (max (if e ≤ -2147483648 then -1 else if e ≥ 2147483647 then d
          else if e < 0 then e + d else e) (-1)) d = d ∧ numpyAdjust d st e = d - 1) := by
      unfold numpyAdjust
      simp only [min_def, max_def, hneg, if_true]
      split_ifs <;> omega
    have hSd : numpyAdjust d st s ≤ d - 1 := by
      rw [← hS]; exact min_le_right _ _
    rw [hS]
    rcases hE with hE | ⟨hE1, hE2⟩
    · rw [hE]
      by_cases h : numpyAdjust d st e < numpyAdjust d st s
      · rw [if_pos (by omega), if_pos h]
        congr 2
        omega
      · rw [if_neg (by omega), if_neg h]
    · rw [hE1, hE2, if_neg (by omega), if_neg (by omega)]
  · have hnn : ¬ st < 0 := by omega
    simp only [hnn, if_false]
    rw [max_ceilDivInt_pos _ _ hpos]
    have hS : min (max (if s < 0 then s + d else s) 0) d = numpyAdjust d st s := by
      unfold numpyAdjust
      simp only [min_def, max_def, hnn, if_false]
      split_ifs <;> omega
    have hE : min (max (if e ≤ -2147483648 then -1 else if e ≥ 2147483647 then d
          else if e < 0 then e + d else e) 0) d = numpyAdjust d st e := by
      unfold numpyAdjust
      simp only [min_def, max_def, hnn, if_false]
      split_ifs <;> omega
    rw [hS, hE]
    by_cases h : numpyAdjust d st s < numpyAdjust d st e
    · rw [if_pos (by omega), if_pos h]
    · rw [if_neg (by omega), if_neg h]

/-- C4 (amended) at a negative step with start and end outside `[0, d)`:
dimension size 10, start 100, end -100, step -3 select 4 elements. -/
theorem C4_output_size_matches_numpy_witness :
    (sliceAxis (Literal 100) (Literal (-100)) (Literal (-3)) (Literal 10)).dimOutputFinal =
      Literal 4 :=
  C4_output_size_matches_numpy 100 (-100) (-3) 10 (by decide) (by decide) (by decide)
    (by decide) (by decide) (by decide) (by decide)

/-! ## The per-axis loop -/

/-- The zero-step test of the loop holds exactly for the literal 0. -/
theorem isLiteral_zero_iff (x : IndexExpr) :
    (x.IsLiteral && x.GetLiteral == 0) = true ↔ x = Literal 0 := by
  cases x <;> simp [IsLiteral, GetLiteral]

/-- A loop iteration succeeds exactly when its three operands are defined and
the step is not the literal 0. -/
theorem sliceSlot_success_iff (op : ONNXSliceOp) (i : Nat) (ii : Int) (r : SliceResults) :
    (sliceSlot op i ii r).1 = .success ↔
      ((CreateSymbolIndexFromArrayAtIndex op.starts i).IsUndefined = false ∧
        (CreateSymbolIndexFromArrayAtIndex op.ends i).IsUndefined = false ∧
        (CreateSymbolIndexFromArrayAtIndexDefault op.steps i 1).IsUndefined = false ∧
        CreateSymbolIndexFromArrayAtIndexDefault op.steps i 1 ≠ Literal 0) := by
  unfold sliceSlot
  simp only []
  split_ifs with h1 h2 h3 h4
  · simp [h1]
  · simp [h1, h2]
  · simp [h1, h2, h3]
  · rw [isLiteral_zero_iff] at h4
    simp [h1, h2, h3, h4]
  · rw [isLiteral_zero_iff] at h4
    simp [h1, h2, h3, h4]

/-- The vectors after a successful loop iteration. -/
theorem sliceSlot_success_snd (op : ONNXSliceOp) (i : Nat) (ii : Int) (r : SliceResults)
    (h : (sliceSlot op i ii r).1 = .success) :
    (sliceSlot op i ii r).2 =
      { startIndices := r.startIndices.set ii.toNat
          (sliceAxis (CreateSymbolIndexFromArrayAtIndex op.starts i)
            (CreateSymbolIndexFromArrayAtIndex op.ends i)
            (CreateSymbolIndexFromArrayAtIndexDefault op.steps i 1)
            (CreateDimIndexFromMemref op.dataShape ii.toNat)).startFinal
        stepIndices := r.stepIndices.set ii.toNat
          (CreateSymbolIndexFromArrayAtIndexDefault op.steps i 1)
        endIndices := r.endIndices.set ii.toNat
          (sliceAxis (CreateSymbolIndexFromArrayAtIndex op.starts i)
            (CreateSymbolIndexFromArrayAtIndex op.ends i)
            (CreateSymbolIndexFromArrayAtIndexDefault op.steps i 1)
            (CreateDimIndexFromMemref op.dataShape ii.toNat)).endFinal
        outputDims := r.outputDims.set ii.toNat
          (sliceAxis (CreateSymbolIndexFromArrayAtIndex op.starts i)
            (CreateSymbolIndexFromArrayAtIndex op.ends i)
            (CreateSymbolIndexFromArrayAtIndexDefault op.steps i 1)
            (CreateDimIndexFromMemref op.dataShape ii.toNat)).dimOutputFinal } := by
  revert h
  unfold sliceSlot
  simp only []
  split_ifs <;> simp

/-- A failing loop iteration writes nothing. -/
theorem sliceSlot_failure_snd (op : ONNXSliceOp) (i : Nat) (ii : Int) (r : SliceResults)
    (h : (sliceSlot op i ii r).1 ≠ .success) : (sliceSlot op i ii r).2 = r := by
  revert h
  unfold sliceSlot
  simp only []
  split_ifs <;> simp

/-- The diagnostics a loop iteration can emit. -/
theorem sliceSlot_failure_msg (op : ONNXSliceOp) (i : Nat) (ii : Int) (r : SliceResults)
    (msg : String) (h : (sliceSlot op i ii r).1 = .failure msg) :
    msg = "start input parameter could not be processed" ∨
    msg = "end input parameter could not be processed" ∨
    msg = "step input parameter could not be processed" ∨
    msg = "step input parameter cannot be zero" := by
  revert h
  unfold sliceSlot
  simp only []
  split_ifs <;> simp <;> intro h <;> simp [← h]

/-- A loop iteration keeps the length of the four vectors. -/
theorem sliceSlot_length (op : ONNXSliceOp) (i : Nat) (ii : Int) (r : SliceResults) :
    (sliceSlot op i ii r).2.startIndices.length = r.startIndices.length ∧
    (sliceSlot op i ii r).2.endIndices.length = r.endIndices.length ∧
    (sliceSlot op i ii r).2.stepIndices.length = r.stepIndices.length ∧
    (sliceSlot op i ii r).2.outputDims.length = r.outputDims.length := by
  unfold sliceSlot
  simp only []
  split_ifs <;> simp

theorem sliceLoop_nil (op : ONNXSliceOp) (i : Nat) (r : SliceResults) :
    sliceLoop op i [] r = (.success, r) := rfl

theorem sliceLoop_cons_success (op : ONNXSliceOp) (i : Nat) (ii : Int) (rest : List Int)
    (r : SliceResults) (h : (sliceSlot op i ii r).1 = .success) :
    sliceLoop op i (ii :: rest) r = sliceLoop op (i + 1) rest (sliceSlot op i ii r).2 := by
  rw [sliceLoop]
  split
  · next r1 heq => rw [heq]
  · next msg r1 heq => rw [heq] at h; cases h

theorem sliceLoop_cons_failure (op : ONNXSliceOp) (i : Nat) (ii : Int) (rest : List Int)
    (r : SliceResults) (msg : String) (h : (sliceSlot op i ii r).1 = .failure msg) :
    sliceLoop op i (ii :: rest) r = (.failure msg, r) := by
  have h2 := sliceSlot_failure_snd op i ii r (by rw [h]; simp)
  rw [sliceLoop]
  split
  · next r1 heq => rw [heq] at h; cases h
  · next msg1 r1 heq =>
    rw [heq] at h h2
    simp only at h h2
    cases h
    rw [h2]

/-- Every outcome is a success or a failure with a diagnostic. -/
theorem LogicalResult_cases (x : LogicalResult) : x = .success ∨ ∃ msg, x = .failure msg := by
  cases x
  · exact Or.inl rfl
  · exact Or.inr ⟨_, rfl⟩

/-- The loop keeps the length of the four vectors. -/
theorem sliceLoop_length (op : ONNXSliceOp) (axes : List Int) :
    ∀ (i : Nat) (r : SliceResults),
      (sliceLoop op i axes r).2.startIndices.length = r.startIndices.length ∧
      (sliceLoop op i axes r).2.endIndices.length = r.endIndices.length ∧
      (sliceLoop op i axes r).2.stepIndices.length = r.stepIndices.length ∧
      (sliceLoop op i axes r).2.outputDims.length = r.outputDims.length := by
  induction axes with
  | nil => intro i r; simp [sliceLoop_nil]
  | cons ii rest ih =>
    intro i r
    rcases LogicalResult_cases (sliceSlot op i ii r).1 with h | ⟨msg, h⟩
    · rw [sliceLoop_cons_success op i ii rest r h]
      have h1 := ih (i + 1) (sliceSlot op i ii r).2
      have h2 := sliceSlot_length op i ii r
      omega
    · rw [sliceLoop_cons_failure op i ii rest r msg h]
      simp

/-- The loop succeeds exactly when every slot has defined operands and a step
other than the literal 0. -/
theorem sliceLoop_success_iff (op : ONNXSliceOp) (axes : List Int) :
    ∀ (i : Nat) (r : SliceResults),
      (sliceLoop op i axes r).1 = .success ↔
        ∀ k, k < axes.length →
          ((CreateSymbolIndexFromArrayAtIndex op.starts (i + k)).IsUndefined = false ∧
            (CreateSymbolIndexFromArrayAtIndex op.ends (i + k)).IsUndefined = false ∧
            (CreateSymbolIndexFromArrayAtIndexDefault op.steps (i + k) 1).IsUndefined = false ∧
            CreateSymbolIndexFromArrayAtIndexDefault op.steps (i + k) 1 ≠ Literal 0) := by
  induction axes with
  | nil => intro i r; simp [sliceLoop_nil]
  | cons ii rest ih =>
    intro i r
    rcases LogicalResult_cases (sliceSlot op i ii r).1 with h | ⟨msg, h⟩
    · rw [sliceLoop_cons_success op i ii rest r h, ih]
      have h0 := (sliceSlot_success_iff op i ii r).mp h
      constructor
      · intro hk k hlt
        cases k with
        | zero => simpa using h0
        | succ k =>
          have := hk k (by simpa using hlt)
          rwa [show i + 1 + k = i + (k + 1) by omega] at this
      · intro hk k hlt
        have := hk (k + 1) (by simpa using hlt)
        rwa [show i + (k + 1) = i + 1 + k by omega] at this
    · rw [sliceLoop_cons_failure op i ii rest r msg h]
      have h0 : ¬ (sliceSlot op i ii r).1 = .success := by rw [h]; simp
      rw [sliceSlot_success_iff] at h0
      constructor
      · intro hf; cases hf
      · intro hk
        exact absurd (by simpa using hk 0 (by simp)) h0

/-- The diagnostics the loop can emit. -/
theorem sliceLoop_failure_msg (op : ONNXSliceOp) (axes : List Int) :
    ∀ (i : Nat) (r : SliceResults) (msg : String),
      (sliceLoop op i axes r).1 = .failure msg →
        msg = "start input parameter could not be processed" ∨
        msg = "end input parameter could not be processed" ∨
        msg = "step input parameter could not be processed" ∨
        msg = "step input parameter cannot be zero" := by
  induction axes with
  | nil => intro i r msg h; simp [sliceLoop_nil] at h
  | cons ii rest ih =>
    intro i r msg
    rcases LogicalResult_cases (sliceSlot op i ii r).1 with h | ⟨msg1, h⟩
    · rw [sliceLoop_cons_success op i ii rest r h]
      exact ih _ _ msg
    · rw [sliceLoop_cons_failure op i ii rest r msg1 h]
      intro hm
      simp only [LogicalResult.failure.injEq] at hm
      subst hm
      exact sliceSlot_failure_msg op i ii r _ h

/-- The loop over a concatenation runs the first part and, when that part
succeeds, the second part from the slot that follows. -/
theorem sliceLoop_append (op : ONNXSliceOp) (l1 l2 : List Int) :
    ∀ (i : Nat) (r : SliceResults),
      sliceLoop op i (l1 ++ l2) r =
        match sliceLoop op i l1 r with
        | (.success, r1) => sliceLoop op (i + l1.length) l2 r1
        | (.failure msg, r1) => (.failure msg, r1) := by
  induction l1 with
  | nil => intro i r; simp [sliceLoop_nil]
  | cons ii rest ih =>
    intro i r
    rcases LogicalResult_cases (sliceSlot op i ii r).1 with h | ⟨msg, h⟩
    · rw [List.cons_append, sliceLoop_cons_success op i ii _ r h,
        sliceLoop_cons_success op i ii _ r h, ih]
      simp only [List.length_cons]
      rw [show i + 1 + rest.length = i + (rest.length + 1) by omega]
    · rw [List.cons_append, sliceLoop_cons_failure op i ii _ r msg h,
        sliceLoop_cons_failure op i ii _ r msg h]

/-! ## Axis normalization -/

/-- A normalized axis is in `[0, dataRank)` exactly when the raw axis is in
`[-dataRank, dataRank - 1]`. -/
theorem axis_in_range_iff (n : Nat) (a : Int) :
    ((if a < 0 then a + n else a) ≥ 0 ∧ (if a < 0 then a + n else a) < n) ↔
      (-(n : Int) ≤ a ∧ a ≤ n - 1) := by
  split_ifs <;> omega

theorem readAxes_ok (n : Nat) (vals : List Int)
    (h : ∀ a ∈ vals, (if a < 0 then a + n else a) ≥ 0 ∧ (if a < 0 then a + n else a) < n) :
    readAxes n vals = .ok (vals.map (fun a => if a < 0 then a + n else a)) := by
  induction vals with
  | nil => rfl
  | cons a rest ih =>
    have h1 := h a (by simp)
    have h2 := ih (fun b hb => h b (by simp [hb]))
    simp only [readAxes, h2, List.map_cons]
    rw [if_neg (by simpa using h1)]

theorem readAxes_error (n : Nat) (vals : List Int)
    (h : ∃ a ∈ vals, ¬ ((if a < 0 then a + n else a) ≥ 0 ∧ (if a < 0 then a + n else a) < n)) :
    readAxes n vals = .error "Axes contains an out-of-bound index" := by
  induction vals with
  | nil => simp at h
  | cons a rest ih =>
    by_cases h1 : (if a < 0 then a + n else a) ≥ 0 ∧ (if a < 0 then a + n else a) < n
    · have h2 : ∃ b ∈ rest, ¬ ((if b < 0 then b + n else b) ≥ 0 ∧
          (if b < 0 then b + n else b) < n) := by
        obtain ⟨b, hb, hb2⟩ := h
        rcases List.mem_cons.mp hb with rfl | hb
        · exact absurd h1 hb2
        · exact ⟨b, hb, hb2⟩
      simp only [readAxes, ih h2]
      rw [if_neg (by simpa using h1)]
    · simp only [readAxes]
      rw [if_pos h1]

/-- The axes read by the helper all lie in `[0, dataRank)`. -/
theorem axesIntLit_range (op : ONNXSliceOp) (axes : List Int) (h : axesIntLit op = .ok axes) :
    ∀ a ∈ axes, 0 ≤ a ∧ a < op.dataShape.length := by
  unfold axesIntLit at h
  cases hax : op.axes with
  | none =>
    rw [hax] at h
    cases h
    intro a ha
    simp only [List.mem_map, List.mem_range] at ha
    obtain ⟨k, hk, rfl⟩ := ha
    simp
    omega
  | constant vals =>
    rw [hax] at h
    simp only at h
    by_cases hall : ∀ a ∈ vals, (if a < 0 then a + (op.dataShape.length : Int) else a) ≥ 0 ∧
        (if a < 0 then a + (op.dataShape.length : Int) else a) < op.dataShape.length
    · rw [readAxes_ok _ _ hall] at h
      cases h
      intro a ha
      simp only [List.mem_map] at ha
      obtain ⟨b, hb, rfl⟩ := ha
      exact hall b hb
    · rw [readAxes_error _ _ (by push_neg at hall ⊢; exact hall)] at h
      cases h
  | runtime hd rd =>
    rw [hax] at h
    cases h

/-! ## The helper as a whole -/

theorem HandleSliceOpParams_axes_error (op : ONNXSliceOp) (r : SliceResults) (msg : String)
    (h : axesIntLit op = .error msg) : HandleSliceOpParams op r = (.failure msg, r) := by
  unfold HandleSliceOpParams
  simp only [h]

theorem HandleSliceOpParams_axes_ok (op : ONNXSliceOp) (r : SliceResults) (axes : List Int)
    (h : axesIntLit op = .ok axes) :
    HandleSliceOpParams op r =
      match sliceLoop op 0 axes
        (resizeResults r op.dataShape.length) with
      | (.failure msg, r1) => (.failure msg, r1)
      | (.success, r1) => (.success, defaultPass op r1) := by
  unfold HandleSliceOpParams
  simp only [h]

/-- With readable axes the helper succeeds exactly when the loop does. -/
theorem HandleSliceOpParams_success_iff (op : ONNXSliceOp) (r : SliceResults)
    (axes : List Int) (h : axesIntLit op = .ok axes) :
    (HandleSliceOpParams op r).1 = .success ↔
      (sliceLoop op 0 axes
        (resizeResults r op.dataShape.length)).1 = .success := by
  rw [HandleSliceOpParams_axes_ok op r axes h]
  split
  · next msg r1 heq => rw [heq]
  · next r1 heq => rw [heq]

/-- With readable axes the helper fails exactly when some slot has an
undefined operand or the literal step 0. -/
theorem HandleSliceOpParams_failure_iff_slot (op : ONNXSliceOp) (r : SliceResults)
    (axes : List Int) (h : axesIntLit op = .ok axes) :
    (HandleSliceOpParams op r).1 ≠ .success ↔
      ∃ i, i < axes.length ∧
        ((CreateSymbolIndexFromArrayAtIndex op.starts i).IsUndefined = true ∨
          (CreateSymbolIndexFromArrayAtIndex op.ends i).IsUndefined = true ∨
          (CreateSymbolIndexFromArrayAtIndexDefault op.steps i 1).IsUndefined = true ∨
          CreateSymbolIndexFromArrayAtIndexDefault op.steps i 1 = Literal 0) := by
  rw [Ne, HandleSliceOpParams_success_iff op r axes h, sliceLoop_success_iff]
  simp only [Nat.zero_add]
  constructor
  · intro hn
    by_contra hc
    apply hn
    intro k hk
    have hnot : ¬ ((CreateSymbolIndexFromArrayAtIndex op.starts k).IsUndefined = true ∨
        (CreateSymbolIndexFromArrayAtIndex op.ends k).IsUndefined = true ∨
        (CreateSymbolIndexFromArrayAtIndexDefault op.steps k 1).IsUndefined = true ∨
        CreateSymbolIndexFromArrayAtIndexDefault op.steps k 1 = Literal 0) :=
      fun hx => hc ⟨k, hk, hx⟩
    simp only [not_or, Bool.not_eq_true] at hnot
    exact hnot
  · rintro ⟨i, hi, hx⟩ hall
    have := hall i hi
    rcases hx with hx | hx | hx | hx
    · rw [hx] at this; simp at this
    · rw [hx] at this; simp at this
    · rw [hx] at this; simp at this
    · exact this.2.2.2 hx

/-- C5. The helper fails if and only if the axes operand is present but not a
compile-time constant, or some axis value (after `dataRank` is added to a
negative one) lies outside `[0, dataRank)`, or for some slot `i < sliceRank`
the start, the end or the step resolves to `Undefined`, or for some slot
`i < sliceRank` the step is the literal 0.  In every other case it succeeds;
a step that is not a literal is none of these cases. -/
theorem C5_failure_iff (op : ONNXSliceOp) (r : SliceResults) :
    (HandleSliceOpParams op r).1 ≠ .success ↔
      ((∃ handle readable, op.axes = .runtime handle readable) ∨
        (∃ vals, op.axes = .constant vals ∧
          ∃ a ∈ vals, ¬ ((if a < 0 then a + (op.dataShape.length : Int) else a) ≥ 0 ∧
            (if a < 0 then a + (op.dataShape.length : Int) else a) < op.dataShape.length)) ∨
        (∃ i, i < sliceRank op ∧
          ((CreateSymbolIndexFromArrayAtIndex op.starts i).IsUndefined = true ∨
            (CreateSymbolIndexFromArrayAtIndex op.ends i).IsUndefined = true ∨
            (CreateSymbolIndexFromArrayAtIndexDefault op.steps i 1).IsUndefined = true)) ∨
        (∃ i, i < sliceRank op ∧
          CreateSymbolIndexFromArrayAtIndexDefault op.steps i 1 = Literal 0)) := by
  have hslot : ∀ axes, axesIntLit op = .ok axes →
      ((HandleSliceOpParams op r).1 ≠ .success ↔
        ((∃ i, i < sliceRank op ∧
          ((CreateSymbolIndexFromArrayAtIndex op.starts i).IsUndefined = true ∨
            (CreateSymbolIndexFromArrayAtIndex op.ends i).IsUndefined = true ∨
            (CreateSymbolIndexFromArrayAtIndexDefault op.steps i 1).IsUndefined = true)) ∨
        (∃ i, i < sliceRank op ∧
          CreateSymbolIndexFromArrayAtIndexDefault op.steps i 1 = Literal 0))) := by
    intro axes hax
    rw [HandleSliceOpParams_failure_iff_slot op r axes hax]
    have hr : sliceRank op = axes.length := by unfold sliceRank; rw [hax]
    rw [hr]
    constructor
    · rintro ⟨i, hi, h1 | h1 | h1 | h1⟩
      · exact Or.inl ⟨i, hi, Or.inl h1⟩
      · exact Or.inl ⟨i, hi, Or.inr (Or.inl h1)⟩
      · exact Or.inl ⟨i, hi, Or.inr (Or.inr h1)⟩
      · exact Or.inr ⟨i, hi, h1⟩
    · rintro (⟨i, hi, h1 | h1 | h1⟩ | ⟨i, hi, h1⟩)
      · exact ⟨i, hi, Or.inl h1⟩
      · exact ⟨i, hi, Or.inr (Or.inl h1)⟩
      · exact ⟨i, hi, Or.inr (Or.inr (Or.inl h1))⟩
      · exact ⟨i, hi, Or.inr (Or.inr (Or.inr h1))⟩
  cases hax : op.axes with
  | none =>
    have h1 : axesIntLit op = .ok ((List.range op.dataShape.length).map Int.ofNat) := by
      unfold axesIntLit; rw [hax]
    rw [hslot _ h1]
    simp
  | constant vals =>
    by_cases hall : ∀ a ∈ vals, (if a < 0 then a + (op.dataShape.length : Int) else a) ≥ 0 ∧
        (if a < 0 then a + (op.dataShape.length : Int) else a) < op.dataShape.length
    · have h1 : axesIntLit op =
          .ok (vals.map (fun a => if a < 0 then a + (op.dataShape.length : Int) else a)) := by
        unfold axesIntLit; rw [hax]; exact readAxes_ok _ _ hall
      rw [hslot _ h1]
      constructor
      · intro h; exact Or.inr (Or.inr h)
      · rintro (⟨_, _, h⟩ | ⟨vals2, h2, a, ha, hna⟩ | h)
        · cases h
        · cases h2
          exact absurd (hall a ha) hna
        · exact h
    · have hex : ∃ a ∈ vals, ¬ ((if a < 0 then a + (op.dataShape.length : Int) else a) ≥ 0 ∧
          (if a < 0 then a + (op.dataShape.length : Int) else a) < op.dataShape.length) := by
        push_neg at hall ⊢; exact hall
      have h1 : axesIntLit op = .error "Axes contains an out-of-bound index" := by
        unfold axesIntLit; rw [hax]; exact readAxes_error _ _ hex
      rw [HandleSliceOpParams_axes_error op r _ h1]
      constructor
      · intro _; exact Or.inr (Or.inl ⟨vals, rfl, hex⟩)
      · intro _; simp
  | runtime handle readable =>
    have h1 : axesIntLit op = .error "Axes must be known at compile time" := by
      unfold axesIntLit; rw [hax]
    rw [HandleSliceOpParams_axes_error op r _ h1]
    constructor
    · intro _; exact Or.inl ⟨handle, readable, rfl⟩
    · intro _; simp

/-- Whether a loop iteration succeeds depends on the slot only, not on the
logical dimension or on the vectors. -/
theorem sliceSlot_fst_indep (op : ONNXSliceOp) (i : Nat) (ii jj : Int) (r s : SliceResults) :
    (sliceSlot op i ii r).1 = (sliceSlot op i jj s).1 := by
  unfold sliceSlot
  simp only []
  split_ifs <;> rfl

/-- A failing loop stopped at some slot `k`: the slots before `k` succeeded and
the vectors are the ones they left. -/
theorem sliceLoop_failure_stops (op : ONNXSliceOp) (axes : List Int) :
    ∀ (i : Nat) (r : SliceResults), (sliceLoop op i axes r).1 ≠ .success →
      ∃ k, k < axes.length ∧
        sliceLoop op i (axes.take k) r = (.success, (sliceLoop op i axes r).2) ∧
        ∀ (ii : Int) (s : SliceResults), (sliceSlot op (i + k) ii s).1 ≠ .success := by
  induction axes with
  | nil => intro i r h; simp [sliceLoop_nil] at h
  | cons a rest ih =>
    intro i r h
    rcases LogicalResult_cases (sliceSlot op i a r).1 with hs | ⟨msg, hs⟩
    · rw [sliceLoop_cons_success op i a rest r hs] at h ⊢
      obtain ⟨k, hk, h1, h2⟩ := ih (i + 1) _ h
      refine ⟨k + 1, by simpa using hk, ?_, ?_⟩
      · rw [List.take_succ_cons, sliceLoop_cons_success op i a _ r hs, h1]
      · intro ii s
        rw [show i + (k + 1) = i + 1 + k by omega]
        exact h2 ii s
    · rw [sliceLoop_cons_failure op i a rest r msg hs]
      refine ⟨0, by simp, by simp [sliceLoop_nil], ?_⟩
      intro ii s
      rw [Nat.add_zero, sliceSlot_fst_indep op i ii a s r, hs]
      simp

theorem resize_length (v : List IndexExpr) (n : Nat) : (resize v n).length = n := by
  unfold resize
  simp
  omega

/-- C6, refuted as stated: on a rank-2 tensor with `axes = [0, 1]` and
`steps = [1, 0]` the helper fails on the second slot, after it has resized the
four vectors to two entries and written the entries of the first slot. -/
theorem C6_counterexample :
    HandleSliceOpParams
        { dataShape := [10, 20], starts := .constant [1, 2], ends := .constant [5, 6],
          steps := .constant [1, 0], axes := .constant [0, 1] } emptyResults =
      (.failure "step input parameter cannot be zero",
        { startIndices := [Literal 1, Undefined]
          endIndices := [Literal 5, Undefined]
          stepIndices := [Literal 1, Undefined]
          outputDims := [Literal 4, Undefined] }) ∧
    (HandleSliceOpParams
        { dataShape := [10, 20], starts := .constant [1, 2], ends := .constant [5, 6],
          steps := .constant [1, 0], axes := .constant [0, 1] } emptyResults).2 ≠
      emptyResults := by
  constructor
  · decide
  · decide

/-- C6, amended. When the helper fails in axis normalization, the four result
vectors are left exactly as they were before the call.  When it fails in the
per-axis loop, it stopped at some slot `k`: the four vectors have been resized
to `dataRank` and hold what the slots before `k` wrote into the resized
vectors; the failing slot itself writes nothing and nothing is rolled back. -/
theorem C6_failure_effect (op : ONNXSliceOp) (r : SliceResults)
    (hfail : (HandleSliceOpParams op r).1 ≠ .success) :
    (∀ msg, axesIntLit op = .error msg → (HandleSliceOpParams op r).2 = r) ∧
    (∀ axes, axesIntLit op = .ok axes →
      ((HandleSliceOpParams op r).2.startIndices.length = op.dataShape.length ∧
        (HandleSliceOpParams op r).2.endIndices.length = op.dataShape.length ∧
        (HandleSliceOpParams op r).2.stepIndices.length = op.dataShape.length ∧
        (HandleSliceOpParams op r).2.outputDims.length = op.dataShape.length) ∧
      ∃ k, k < axes.length ∧
        sliceLoop op 0 (axes.take k)
            (resizeResults r op.dataShape.length) =
          (.success, (HandleSliceOpParams op r).2) ∧
        ∀ (ii : Int) (s : SliceResults), (sliceSlot op k ii s).1 ≠ .success) := by
  constructor
  · intro msg h
    rw [HandleSliceOpParams_axes_error op r msg h]
  · intro axes h
    have hl := (HandleSliceOpParams_success_iff op r axes h).not.mp hfail
    have heq : (HandleSliceOpParams op r).2 =
        (sliceLoop op 0 axes
          (resizeResults r op.dataShape.length)).2 := by
      rw [HandleSliceOpParams_axes_ok op r axes h]
      split
      · next msg r1 heq => rw [heq]
      · next r1 heq => rw [heq] at hl; exact absurd rfl hl
    rw [heq]
    refine ⟨?_, ?_⟩
    · have := sliceLoop_length op axes 0
        (resizeResults r op.dataShape.length)
      simpa [resizeResults, resize_length] using this
    · obtain ⟨k, hk, h1, h2⟩ := sliceLoop_failure_stops op axes 0 _ hl
      exact ⟨k, hk, h1, fun ii s => by simpa using h2 ii s⟩

/-- C6 (amended) at the rank-2 tensor with `axes = [0, 1]`, `steps = [1, 0]`:
the failing call leaves vectors of two entries. -/
theorem C6_failure_effect_witness :
    (HandleSliceOpParams
        { dataShape := [10, 20], starts := .constant [1, 2], ends := .constant [5, 6],
          steps := .constant [1, 0], axes := .constant [0, 1] } emptyResults).2.startIndices.length
      = 2 :=
  ((C6_failure_effect
      { dataShape := [10, 20], starts := .constant [1, 2], ends := .constant [5, 6],
        steps := .constant [1, 0], axes := .constant [0, 1] } emptyResults
      (by decide)).2 [0, 1] (by rfl)).1.1

/-- The loop over the first `i + 1` axes runs the loop over the first `i` axes
and then slot `i` on the logical dimension `axes[i]`. -/
theorem sliceLoop_take_succ (op : ONNXSliceOp) (axes : List Int) (i : Nat)
    (hi : i < axes.length) (r : SliceResults) :
    sliceLoop op 0 (axes.take (i + 1)) r =
      match sliceLoop op 0 (axes.take i) r with
      | (.success, r1) => sliceSlot op i (axes.get ⟨i, hi⟩) r1
      | (.failure msg, r1) => (.failure msg, r1) := by
  have h1 : axes.take (i + 1) = axes.take i ++ [axes.get ⟨i, hi⟩] := by
    rw [List.take_succ]
    simp [List.getElem?_eq_getElem hi]
  rw [h1, sliceLoop_append]
  have h2 : (axes.take i).length = i := by simp; omega
  split
  · next r1 heq =>
    rw [h2, Nat.zero_add]
    rcases LogicalResult_cases (sliceSlot op i (axes.get ⟨i, hi⟩) r1).1 with hs | ⟨msg, hs⟩
    · rw [sliceLoop_cons_success _ _ _ _ _ hs, sliceLoop_nil]
      exact Prod.ext hs.symm rfl
    · rw [sliceLoop_cons_failure _ _ _ _ _ msg hs]
      exact Prod.ext hs.symm (sliceSlot_failure_snd _ _ _ _ (by rw [hs]; simp)).symm
  · rfl

/-- C7. With a compile-time constant `axes`, every axis value `a` is
normalized to `a + dataRank` when `a < 0` and to `a` otherwise; the helper
fails with the out-of-bound diagnostic exactly when some normalized value is
outside `[0, dataRank)`, that is exactly when some raw axis is outside
`[-dataRank, dataRank - 1]`; otherwise the loop runs over the normalized axes
and slot `i` is processed on the logical dimension given by the normalized
`axes[i]`. -/
theorem C7_axes_normalization (op : ONNXSliceOp) (r : SliceResults) (vals : List Int)
    (hax : op.axes = .constant vals) :
    ((HandleSliceOpParams op r).1 = .failure "Axes contains an out-of-bound index" ↔
      ∃ a ∈ vals, ¬ ((if a < 0 then a + (op.dataShape.length : Int) else a) ≥ 0 ∧
        (if a < 0 then a + (op.dataShape.length : Int) else a) < op.dataShape.length)) ∧
    ((HandleSliceOpParams op r).1 = .failure "Axes contains an out-of-bound index" ↔
      ∃ a ∈ vals, ¬ (-(op.dataShape.length : Int) ≤ a ∧ a ≤ (op.dataShape.length : Int) - 1)) ∧
    ((∀ a ∈ vals, -(op.dataShape.length : Int) ≤ a ∧ a ≤ (op.dataShape.length : Int) - 1) →
      axesIntLit op =
        .ok (vals.map (fun a => if a < 0 then a + (op.dataShape.length : Int) else a)) ∧
      (HandleSliceOpParams op r =
        match sliceLoop op 0
          (vals.map (fun a => if a < 0 then a + (op.dataShape.length : Int) else a))
          (resizeResults r op.dataShape.length) with
        | (.failure msg, r1) => (.failure msg, r1)
        | (.success, r1) => (.success, defaultPass op r1)) ∧
      ∀ (i : Nat) (hi : i < vals.length) (s : SliceResults),
        sliceLoop op 0
            ((vals.map (fun a => if a < 0 then a + (op.dataShape.length : Int) else a)).take
              (i + 1)) s =
          match sliceLoop op 0
            ((vals.map (fun a => if a < 0 then a + (op.dataShape.length : Int) else a)).take i)
            s with
          | (.success, r1) =>
            sliceSlot op i
              (if vals.get ⟨i, hi⟩ < 0 then vals.get ⟨i, hi⟩ + (op.dataShape.length : Int)
                else vals.get ⟨i, hi⟩) r1
          | (.failure msg, r1) => (.failure msg, r1)) := by
  have key : (HandleSliceOpParams op r).1 = .failure "Axes contains an out-of-bound index" ↔
      ∃ a ∈ vals, ¬ ((if a < 0 then a + (op.dataShape.length : Int) else a) ≥ 0 ∧
        (if a < 0 then a + (op.dataShape.length : Int) else a) < op.dataShape.length) := by
    constructor
    · intro hf
      by_contra hne
      have hall : ∀ a ∈ vals, (if a < 0 then a + (op.dataShape.length : Int) else a) ≥ 0 ∧
          (if a < 0 then a + (op.dataShape.length : Int) else a) < op.dataShape.length := by
        intro a ha
        by_contra hc
        exact hne ⟨a, ha, hc⟩
      have h1 : axesIntLit op =
          .ok (vals.map (fun a => if a < 0 then a + (op.dataShape.length : Int) else a)) := by
        unfold axesIntLit; rw [hax]; exact readAxes_ok _ _ hall
      rw [HandleSliceOpParams_axes_ok op r _ h1] at hf
      split at hf
      · next msg r1 heq =>
        have hm := sliceLoop_failure_msg op _ 0 _ msg (by rw [heq])
        simp only [LogicalResult.failure.injEq] at hf
        subst hf
        revert hm
        decide
      · cases hf
    · intro hex
      have h1 : axesIntLit op = .error "Axes contains an out-of-bound index" := by
        unfold axesIntLit; rw [hax]; exact readAxes_error _ _ hex
      rw [HandleSliceOpParams_axes_error op r _ h1]
  refine ⟨key, ?_, ?_⟩
  · rw [key]
    constructor
    · rintro ⟨a, ha, hn⟩
      exact ⟨a, ha, fun h => hn ((axis_in_range_iff _ a).mpr h)⟩
    · rintro ⟨a, ha, hn⟩
      exact ⟨a, ha, fun h => hn ((axis_in_range_iff _ a).mp h)⟩
  · intro hall
    have hall2 : ∀ a ∈ vals, (if a < 0 then a + (op.dataShape.length : Int) else a) ≥ 0 ∧
        (if a < 0 then a + (op.dataShape.length : Int) else a) < op.dataShape.length :=
      fun a ha => (axis_in_range_iff _ a).mpr (hall a ha)
    have h1 : axesIntLit op =
        .ok (vals.map (fun a => if a < 0 then a + (op.dataShape.length : Int) else a)) := by
      unfold axesIntLit; rw [hax]; exact readAxes_ok _ _ hall2
    refine ⟨h1, HandleSliceOpParams_axes_ok op r _ h1, ?_⟩
    intro i hi s
    rw [sliceLoop_take_succ op _ i (by simpa using hi) s]
    simp

/-- C7 on a rank-2 tensor: `axes = [-1, 0]` is normalized to `[1, 0]`, and
`axes = [0, 2]` is rejected as out of bound. -/
theorem C7_axes_normalization_witness :
    axesIntLit
        { dataShape := [10, 20], starts := .constant [1, 2], ends := .constant [5, 6],
          steps := .none, axes := .constant [-1, 0] } = .ok [1, 0] ∧
    (HandleSliceOpParams
        { dataShape := [10, 20], starts := .constant [1, 2], ends := .constant [5, 6],
          steps := .none, axes := .constant [0, 2] } emptyResults).1 =
      .failure "Axes contains an out-of-bound index" :=
  ⟨((C7_axes_normalization
      { dataShape := [10, 20], starts := .constant [1, 2], ends := .constant [5, 6],
        steps := .none, axes := .constant [-1, 0] } emptyResults [-1, 0] rfl).2.2
      (by decide)).1,
    (C7_axes_normalization
      { dataShape := [10, 20], starts := .constant [1, 2], ends := .constant [5, 6],
        steps := .none, axes := .constant [0, 2] } emptyResults [0, 2] rfl).2.1.mpr
      ⟨2, by decide, by decide⟩⟩

/-! ## Records of the result vectors -/

theorem sliceSlot_sized (op : ONNXSliceOp) (i : Nat) (ii : Int) (r : SliceResults) (n : Nat)
    (h : r.sized n) : (sliceSlot op i ii r).2.sized n := by
  have := sliceSlot_length op i ii r
  unfold SliceResults.sized at *
  omega

theorem sliceLoop_sized (op : ONNXSliceOp) (axes : List Int) (i : Nat) (r : SliceResults)
    (n : Nat) (h : r.sized n) : (sliceLoop op i axes r).2.sized n := by
  have := sliceLoop_length op axes i r
  unfold SliceResults.sized at *
  omega

/-- A loop iteration leaves the records of the other dimensions alone. -/
theorem sliceSlot_record_ne (op : ONNXSliceOp) (i : Nat) (ii : Int) (r : SliceResults)
    (j : Nat) (hj : ii.toNat ≠ j) : (sliceSlot op i ii r).2.record j = r.record j := by
  rcases LogicalResult_cases (sliceSlot op i ii r).1 with h | ⟨msg, h⟩
  · rw [sliceSlot_success_snd op i ii r h]
    simp [SliceResults.record, List.getElem?_set_ne hj]
  · rw [sliceSlot_failure_snd op i ii r (by rw [h]; simp)]

/-- A successful loop iteration saves its record at its logical dimension. -/
theorem sliceSlot_record_self (op : ONNXSliceOp) (i : Nat) (ii : Int) (r : SliceResults)
    (n : Nat) (hr : r.sized n) (hii : ii.toNat < n) (h : (sliceSlot op i ii r).1 = .success) :
    (sliceSlot op i ii r).2.record ii.toNat = slotRecord op i ii.toNat := by
  rw [sliceSlot_success_snd op i ii r h]
  unfold SliceResults.sized at hr
  obtain ⟨h1, h2, h3, h4⟩ := hr
  simp [SliceResults.record, slotRecord, List.getElem?_set_self, h1, h2, h3, h4, hii]

/-- The loop leaves alone the records of the dimensions its axes do not name. -/
theorem sliceLoop_record_frame (op : ONNXSliceOp) (axes : List Int) (j : Nat) :
    ∀ (i : Nat) (r : SliceResults), (∀ a ∈ axes, a.toNat ≠ j) →
      (sliceLoop op i axes r).2.record j = r.record j := by
  induction axes with
  | nil => intro i r _; rw [sliceLoop_nil]
  | cons a rest ih =>
    intro i r hne
    rcases LogicalResult_cases (sliceSlot op i a r).1 with h | ⟨msg, h⟩
    · rw [sliceLoop_cons_success op i a rest r h, ih _ _ (fun b hb => hne b (by simp [hb])),
        sliceSlot_record_ne op i a r j (hne a (by simp))]
    · rw [sliceLoop_cons_failure op i a rest r msg h]

/-- After a successful loop, the record of a logical dimension is the one saved
by the last slot that names it. -/
theorem sliceLoop_record_last (op : ONNXSliceOp) (pre post : List Int) (a : Int)
    (i : Nat) (r res : SliceResults) (n : Nat) (hr : r.sized n) (ha : a.toNat < n)
    (hpost : ∀ b ∈ post, b.toNat ≠ a.toNat)
    (h : sliceLoop op i (pre ++ a :: post) r = (.success, res)) :
    res.record a.toNat = slotRecord op (i + pre.length) a.toNat := by
  rw [sliceLoop_append] at h
  split at h
  · next r1 heq =>
    have hr1 : r1.sized n := by
      have := sliceLoop_sized op pre i r n hr
      rwa [heq] at this
    rcases LogicalResult_cases (sliceSlot op (i + pre.length) a r1).1 with hs | ⟨msg, hs⟩
    · rw [sliceLoop_cons_success _ _ _ _ _ hs] at h
      have h1 := sliceLoop_record_frame op post a.toNat (i + pre.length + 1)
        (sliceSlot op (i + pre.length) a r1).2 hpost
      rw [h] at h1
      rw [h1, sliceSlot_record_self op _ a r1 n hr1 ha hs]
    · rw [sliceLoop_cons_failure _ _ _ _ _ msg hs] at h
      cases h
  · cases h

/-! ## The defaulting loop -/

/-- The step the defaulting loop tests is the step entry of the record. -/
theorem getD_step_eq_record (r : SliceResults) (j : Nat) :
    r.stepIndices.getD j Undefined = (r.record j).2.2.1.getD Undefined := by
  simp [SliceResults.record]

theorem defaultSlot_sized (op : ONNXSliceOp) (r : SliceResults) (i n : Nat) (h : r.sized n) :
    (defaultSlot op r i).sized n := by
  unfold defaultSlot
  split_ifs
  · unfold SliceResults.sized at *
    simpa using h
  · exact h

theorem defaultSlot_record_ne (op : ONNXSliceOp) (r : SliceResults) (i j : Nat) (hj : i ≠ j) :
    (defaultSlot op r i).record j = r.record j := by
  unfold defaultSlot
  split_ifs
  · simp [SliceResults.record, List.getElem?_set_ne hj]
  · rfl

theorem defaultSlot_record_self (op : ONNXSliceOp) (r : SliceResults) (i n : Nat)
    (hr : r.sized n) (hi : i < n) :
    (defaultSlot op r i).record i =
      if (r.stepIndices.getD i Undefined).IsUndefined = true then defaultRecord op i
      else r.record i := by
  unfold defaultSlot
  unfold SliceResults.sized at hr
  obtain ⟨h1, h2, h3, h4⟩ := hr
  split_ifs
  · simp [SliceResults.record, defaultRecord, List.getElem?_set_self, h1, h2, h3, h4, hi]
  · rfl

/-- The defaulting loop run over the first `m` dimensions. -/
theorem defaultFold_record (op : ONNXSliceOp) (r : SliceResults) (n : Nat) (hr : r.sized n) :
    ∀ m, m ≤ n →
      ((List.range m).foldl (defaultSlot op) r).sized n ∧
      ∀ j, ((List.range m).foldl (defaultSlot op) r).record j =
        if j < m ∧ (r.stepIndices.getD j Undefined).IsUndefined = true then defaultRecord op j
        else r.record j := by
  intro m
  induction m with
  | zero => intro _; simp [hr]
  | succ m ih =>
    intro hm
    obtain ⟨hs, hrec⟩ := ih (by omega)
    rw [List.range_succ, List.foldl_append]
    simp only [List.foldl_cons, List.foldl_nil]
    refine ⟨defaultSlot_sized op _ m n hs, ?_⟩
    intro j
    by_cases hjm : m = j
    · subst hjm
      rw [defaultSlot_record_self op _ m n hs (by omega)]
      have h1 := hrec m
      rw [if_neg (by omega)] at h1
      rw [getD_step_eq_record, h1, ← getD_step_eq_record]
      by_cases hu : (r.stepIndices.getD m Undefined).IsUndefined = true
      · rw [if_pos hu, if_pos ⟨by omega, hu⟩]
      · rw [if_neg hu, if_neg (fun h => hu h.2)]
    · rw [defaultSlot_record_ne op _ m j hjm, hrec j]
      by_cases hu : (r.stepIndices.getD j Undefined).IsUndefined = true
      · by_cases hlt : j < m
        · rw [if_pos ⟨hlt, hu⟩, if_pos ⟨by omega, hu⟩]
        · rw [if_neg (fun h => hlt h.1), if_neg (fun h => hlt (by omega))]
      · rw [if_neg (fun h => hu h.2), if_neg (fun h => hu h.2)]

/-- The defaulting loop replaces the record of every dimension whose step is
still `Undefined` and keeps all the others. -/
theorem defaultPass_record (op : ONNXSliceOp) (r : SliceResults)
    (hr : r.sized op.dataShape.length) (j : Nat) (hj : j < op.dataShape.length) :
    (defaultPass op r).record j =
      if (r.stepIndices.getD j Undefined).IsUndefined = true then defaultRecord op j
      else r.record j := by
  unfold defaultPass
  rw [(defaultFold_record op r _ hr _ (le_refl _)).2 j]
  by_cases hu : (r.stepIndices.getD j Undefined).IsUndefined = true
  · rw [if_pos ⟨hj, hu⟩, if_pos hu]
  · rw [if_neg (fun h => hu h.2), if_neg hu]

theorem defaultPass_sized (op : ONNXSliceOp) (r : SliceResults)
    (hr : r.sized op.dataShape.length) : (defaultPass op r).sized op.dataShape.length :=
  (defaultFold_record op r _ hr _ (le_refl _)).1

theorem resize_sized (r : SliceResults) (n : Nat) : (resizeResults r n).sized n := by
  simp [SliceResults.sized, resizeResults, resize_length]

/-- An entry of a resized vector: the old entry where there was one, and
`Undefined` in the padding. -/
theorem resize_getD (v : List IndexExpr) (n j : Nat) (hj : j < n) :
    (resize v n).getD j Undefined = v.getD j Undefined := by
  unfold resize
  simp only [List.getD_eq_getElem?_getD]
  by_cases h : j < v.length
  · rw [List.getElem?_append_left (by simp; omega)]
    simp [List.getElem?_take, hj]
  · rw [List.getElem?_append_right (by simp; omega)]
    have h2 : v[j]? = none := List.getElem?_eq_none (by omega)
    rw [h2]
    simp only [List.length_take, Option.getD_none]
    by_cases h3 : j - min n v.length < n - v.length
    · rw [List.getElem?_replicate, if_pos h3]
      rfl
    · rw [List.getElem?_eq_none (by simpa using h3)]
      rfl

/-! ## Records after a successful call -/

/-- A successful call ran the whole loop on the resized vectors and then the
defaulting loop. -/
theorem HandleSliceOpParams_success_split (op : ONNXSliceOp) (r res : SliceResults)
    (axes : List Int) (hax : axesIntLit op = .ok axes)
    (hres : HandleSliceOpParams op r = (.success, res)) :
    ∃ r1, sliceLoop op 0 axes
        (resizeResults r op.dataShape.length) = (.success, r1) ∧
      r1.sized op.dataShape.length ∧ res = defaultPass op r1 := by
  rw [HandleSliceOpParams_axes_ok op r axes hax] at hres
  split at hres
  · cases hres
  · next r1 heq =>
    refine ⟨r1, heq, ?_, ?_⟩
    · have := sliceLoop_sized op axes 0 _ _ (resize_sized r op.dataShape.length)
      rwa [heq] at this
    · cases hres; rfl

/-- After a successful loop from slot 0, the record of the logical dimension
named by slot `i` is the one slot `i` saved, provided no later slot names that
dimension. -/
theorem sliceLoop_record_slot (op : ONNXSliceOp) (r0 r1 : SliceResults) (axes : List Int)
    (n : Nat) (hr : r0.sized n) (hloop : sliceLoop op 0 axes r0 = (.success, r1))
    (i : Nat) (hi : i < axes.length) (hlt : (axes.get ⟨i, hi⟩).toNat < n)
    (hlast : ∀ k (hk : k < axes.length), i < k →
      (axes.get ⟨k, hk⟩).toNat ≠ (axes.get ⟨i, hi⟩).toNat) :
    r1.record (axes.get ⟨i, hi⟩).toNat = slotRecord op i (axes.get ⟨i, hi⟩).toNat := by
  have hsplit : axes = axes.take i ++ axes.get ⟨i, hi⟩ :: axes.drop (i + 1) := by
    rw [List.get_eq_getElem, ← List.drop_eq_getElem_cons, List.take_append_drop]
  have hpost : ∀ b ∈ axes.drop (i + 1), b.toNat ≠ (axes.get ⟨i, hi⟩).toNat := by
    intro b hb
    obtain ⟨k, hk, rfl⟩ := List.getElem_of_mem hb
    rw [List.getElem_drop]
    have hk2 : i + 1 + k < axes.length := by
      rw [List.length_drop] at hk; omega
    exact hlast (i + 1 + k) hk2 (by omega)
  have hloop2 := hloop
  rw [hsplit] at hloop2
  have hrec := sliceLoop_record_last op _ _ _ 0 _ r1 _ hr hlt hpost hloop2
  have hlen : (axes.take i).length = i := by simp; omega
  rw [hlen, Nat.zero_add] at hrec
  exact hrec

/-- After a successful call, the record of the logical dimension named by slot
`i` is the one slot `i` saved, provided no later slot names that dimension. -/
theorem HandleSliceOpParams_record_slot (op : ONNXSliceOp) (r res : SliceResults)
    (axes : List Int) (hax : axesIntLit op = .ok axes)
    (hres : HandleSliceOpParams op r = (.success, res))
    (i : Nat) (hi : i < axes.length)
    (hlast : ∀ k (hk : k < axes.length), i < k →
      (axes.get ⟨k, hk⟩).toNat ≠ (axes.get ⟨i, hi⟩).toNat) :
    res.record (axes.get ⟨i, hi⟩).toNat = slotRecord op i (axes.get ⟨i, hi⟩).toNat := by
  obtain ⟨r1, hloop, hsized, rfl⟩ := HandleSliceOpParams_success_split op r res axes hax hres
  have hrange := axesIntLit_range op axes hax (axes.get ⟨i, hi⟩) (List.get_mem _ _ _)
  have hlt : (axes.get ⟨i, hi⟩).toNat < op.dataShape.length := by omega
  have hrec := sliceLoop_record_slot op _ r1 axes _ (resize_sized r op.dataShape.length) hloop
    i hi hlt hlast
  have hok := (sliceLoop_success_iff op axes 0 _).mp (by rw [hloop]) i hi
  rw [Nat.zero_add] at hok
  rw [defaultPass_record op r1 hsized _ hlt, getD_step_eq_record, hrec]
  have hstep : (slotRecord op i (axes.get ⟨i, hi⟩).toNat).2.2.1 =
      some (CreateSymbolIndexFromArrayAtIndexDefault op.steps i 1) := rfl
  rw [hstep, Option.getD_some, hok.2.2.1]
  simp

/-- After a successful call, a logical dimension that no axis names and whose
step entry was not defined in the vector passed in has the default record. -/
theorem HandleSliceOpParams_record_default (op : ONNXSliceOp) (r res : SliceResults)
    (axes : List Int) (hax : axesIntLit op = .ok axes)
    (hres : HandleSliceOpParams op r = (.success, res))
    (j : Nat) (hj : j < op.dataShape.length) (hnot : ∀ a ∈ axes, a.toNat ≠ j)
    (hundef : (r.stepIndices.getD j Undefined).IsUndefined = true) :
    res.record j = defaultRecord op j := by
  obtain ⟨r1, hloop, hsized, rfl⟩ := HandleSliceOpParams_success_split op r res axes hax hres
  have hframe := sliceLoop_record_frame op axes j 0 (resizeResults r op.dataShape.length) hnot
  rw [hloop] at hframe
  simp only at hframe
  rw [defaultPass_record op r1 hsized j hj, getD_step_eq_record, hframe,
    ← getD_step_eq_record]
  simp only [resizeResults, resize_getD _ _ _ hj, hundef, if_true]

/-- After a successful call, a logical dimension that no axis names and whose
step entry was already defined in the vector passed in keeps the record of the
resized vectors. -/
theorem HandleSliceOpParams_record_stale (op : ONNXSliceOp) (r res : SliceResults)
    (axes : List Int) (hax : axesIntLit op = .ok axes)
    (hres : HandleSliceOpParams op r = (.success, res))
    (j : Nat) (hj : j < op.dataShape.length) (hnot : ∀ a ∈ axes, a.toNat ≠ j)
    (hdef : (r.stepIndices.getD j Undefined).IsUndefined = false) :
    res.record j =
      (resizeResults r op.dataShape.length).record j := by
  obtain ⟨r1, hloop, hsized, rfl⟩ := HandleSliceOpParams_success_split op r res axes hax hres
  have hframe := sliceLoop_record_frame op axes j 0 (resizeResults r op.dataShape.length) hnot
  rw [hloop] at hframe
  simp only at hframe
  rw [defaultPass_record op r1 hsized j hj, getD_step_eq_record, hframe,
    ← getD_step_eq_record]
  simp only [resizeResults, resize_getD _ _ _ hj, hdef, Bool.false_eq_true, if_false]

/-- The defaulting loop changes nothing when every step entry is defined. -/
theorem defaultPass_eq_self (op : ONNXSliceOp) (r : SliceResults)
    (h : ∀ j, j < op.dataShape.length → (r.stepIndices.getD j Undefined).IsUndefined = false) :
    defaultPass op r = r := by
  unfold defaultPass
  have key : ∀ m, m ≤ op.dataShape.length → (List.range m).foldl (defaultSlot op) r = r := by
    intro m
    induction m with
    | zero => intro _; rfl
    | succ m ih =>
      intro hm
      rw [List.range_succ, List.foldl_append, ih (by omega)]
      simp only [List.foldl_cons, List.foldl_nil]
      unfold defaultSlot
      rw [if_neg (by rw [h m (by omega)]; simp)]
  exact key _ (le_refl _)

/-- The components of a record equation. -/
theorem record_eq_iff (r : SliceResults) (j : Nat) (a b c d : IndexExpr) :
    r.record j = (some a, some b, some c, some d) ↔
      r.startIndices[j]? = some a ∧ r.endIndices[j]? = some b ∧ r.stepIndices[j]? = some c ∧
        r.outputDims[j]? = some d := by
  simp [SliceResults.record, Prod.ext_iff]

/-- C8. When the axes operand is absent, the axes are `[0, 1, ..., dataRank-1]`
and `sliceRank = dataRank`; on success, for every dimension `i < dataRank` the
resolved start, end, step and output size at position `i` are the ones the loop
computed from `starts[i]`, `ends[i]`, `steps[i]` and the size of dimension `i`,
and the defaulting loop fills no dimension. -/
theorem C8_default_axes (op : ONNXSliceOp) (r res : SliceResults)
    (hax : op.axes = .none) (hres : HandleSliceOpParams op r = (.success, res)) :
    axesIntLit op = .ok ((List.range op.dataShape.length).map Int.ofNat) ∧
    sliceRank op = op.dataShape.length ∧
    (∀ i, i < op.dataShape.length →
      res.startIndices[i]? = some (sliceAxis (CreateSymbolIndexFromArrayAtIndex op.starts i)
        (CreateSymbolIndexFromArrayAtIndex op.ends i)
        (CreateSymbolIndexFromArrayAtIndexDefault op.steps i 1)
        (CreateDimIndexFromMemref op.dataShape i)).startFinal ∧
      res.endIndices[i]? = some (sliceAxis (CreateSymbolIndexFromArrayAtIndex op.starts i)
        (CreateSymbolIndexFromArrayAtIndex op.ends i)
        (CreateSymbolIndexFromArrayAtIndexDefault op.steps i 1)
        (CreateDimIndexFromMemref op.dataShape i)).endFinal ∧
      res.stepIndices[i]? = some (CreateSymbolIndexFromArrayAtIndexDefault op.steps i 1) ∧
      res.outputDims[i]? = some (sliceAxis (CreateSymbolIndexFromArrayAtIndex op.starts i)
        (CreateSymbolIndexFromArrayAtIndex op.ends i)
        (CreateSymbolIndexFromArrayAtIndexDefault op.steps i 1)
        (CreateDimIndexFromMemref op.dataShape i)).dimOutputFinal) ∧
    res = (sliceLoop op 0 ((List.range op.dataShape.length).map Int.ofNat)
      (resizeResults r op.dataShape.length)).2 := by
  have h1 : axesIntLit op = .ok ((List.range op.dataShape.length).map Int.ofNat) := by
    unfold axesIntLit; rw [hax]
  have h2 : sliceRank op = op.dataShape.length := by
    unfold sliceRank; rw [h1]; simp
  have hrec : ∀ i, i < op.dataShape.length → res.record i = slotRecord op i i := by
    intro i hi
    have hi2 : i < ((List.range op.dataShape.length).map Int.ofNat).length := by simpa using hi
    have hget : ((List.range op.dataShape.length).map Int.ofNat).get ⟨i, hi2⟩ = (i : Int) := by
      simp
    have := HandleSliceOpParams_record_slot op r res _ h1 hres i hi2 (by
      intro k hk hik
      have hgk : ((List.range op.dataShape.length).map Int.ofNat).get ⟨k, hk⟩ = (k : Int) := by
        simp
      rw [hgk, hget]
      simp
      omega)
    rw [hget] at this
    simpa using this
  refine ⟨h1, h2, ?_, ?_⟩
  · intro i hi
    exact (record_eq_iff res i _ _ _ _).mp (hrec i hi)
  · obtain ⟨r1, hloop, hsized, hr1⟩ := HandleSliceOpParams_success_split op r res _ h1 hres
    rw [hloop]
    simp only
    rw [hr1]
    apply defaultPass_eq_self
    intro j hj
    have hj2 : j < ((List.range op.dataShape.length).map Int.ofNat).length := by simpa using hj
    have hget : ((List.range op.dataShape.length).map Int.ofNat).get ⟨j, hj2⟩ = (j : Int) := by
      simp
    have hrec1 := sliceLoop_record_slot op _ r1 _ _ (resize_sized r op.dataShape.length) hloop
      j hj2 (by rw [hget]; simpa using hj) (by
        intro k hk hjk
        have hgk : ((List.range op.dataShape.length).map Int.ofNat).get ⟨k, hk⟩ = (k : Int) := by
          simp
        rw [hgk, hget]
        simp
        omega)
    rw [hget] at hrec1
    simp only [Int.toNat_ofNat] at hrec1
    have hok := (sliceLoop_success_iff op _ 0 _).mp (by rw [hloop]) j hj2
    rw [Nat.zero_add] at hok
    rw [getD_step_eq_record, hrec1]
    simpa [slotRecord] using hok.2.2.1

/-- C8 on a rank-3 tensor with `axes` omitted: `sliceRank` is 3 and each of
the three dimensions holds what its own slot computed. -/
theorem C8_default_axes_witness :
    sliceRank
        { dataShape := [10, 20, 30], starts := .constant [1, 2, 3],
          ends := .constant [5, 6, 7], steps := .constant [1, 2, 3], axes := .none } = 3 ∧
    (HandleSliceOpParams
        { dataShape := [10, 20, 30], starts := .constant [1, 2, 3],
          ends := .constant [5, 6, 7], steps := .constant [1, 2, 3], axes := .none }
        emptyResults).2.outputDims[2]? = some (Literal 2) ∧
    (HandleSliceOpParams
        { dataShape := [10, 20, 30], starts := .constant [1, 2, 3],
          ends := .constant [5, 6, 7], steps := .constant [1, 2, 3], axes := .none }
        emptyResults).2.stepIndices[1]? = some (Literal 2) :=
  have h := C8_default_axes
    { dataShape := [10, 20, 30], starts := .constant [1, 2, 3],
      ends := .constant [5, 6, 7], steps := .constant [1, 2, 3], axes := .none }
    emptyResults _ rfl (Prod.ext (by decide) rfl)
  ⟨h.2.1, (h.2.2.1 2 (by decide)).2.2.2, (h.2.2.1 1 (by decide)).2.2.1⟩

/-- C9, refuted as stated: on a rank-3 tensor with `axes = [1]`, when the
caller passes a step vector that already holds a defined entry at position 0,
the call succeeds and dimension 0 is not named by the axes, yet its step is the
stale entry and its start, end and output size are `Undefined`: the defaulting
loop only fills the dimensions whose step is `Undefined`. -/
theorem C9_counterexample :
    HandleSliceOpParams
        { dataShape := [10, 20, 30], starts := .constant [1], ends := .constant [5],
          steps := .none, axes := .constant [1] }
        { startIndices := [], endIndices := [], stepIndices := [Literal 5], outputDims := [] } =
      (.success,
        { startIndices := [Undefined, Literal 1, Literal 0]
          endIndices := [Undefined, Literal 5, Literal 30]
          stepIndices := [Literal 5, Literal 1, Literal 1]
          outputDims := [Undefined, Literal 4, Literal 30] }) := by
  decide

/-- C9, amended. On success, every logical dimension `j < dataRank` that is not
named by the normalized axes, and at which the step vector passed in holds no
defined entry (as when the result vectors are passed in empty), resolves to
start = literal 0, step = literal 1, end = the index expression of the size of
dimension `j`, and output size = that same expression. -/
theorem C9_unsliced_dimension_default (op : ONNXSliceOp) (r res : SliceResults)
    (axes : List Int) (hax : axesIntLit op = .ok axes)
    (hres : HandleSliceOpParams op r = (.success, res))
    (j : Nat) (hj : j < op.dataShape.length) (hnot : (j : Int) ∉ axes)
    (hfresh : (r.stepIndices.getD j Undefined).IsUndefined = true) :
    res.startIndices[j]? = some (Literal 0) ∧
    res.stepIndices[j]? = some (Literal 1) ∧
    res.endIndices[j]? = some (CreateDimIndexFromMemref op.dataShape j) ∧
    res.outputDims[j]? = some (CreateDimIndexFromMemref op.dataShape j) := by
  have hne : ∀ a ∈ axes, a.toNat ≠ j := by
    intro a ha heq
    have := axesIntLit_range op axes hax a ha
    have ha2 : a = (j : Int) := by omega
    exact hnot (ha2 ▸ ha)
  have h := HandleSliceOpParams_record_default op r res axes hax hres j hj hne hfresh
  have h2 := (record_eq_iff res j _ _ _ _).mp h
  exact ⟨h2.1, h2.2.2.1, h2.2.1, h2.2.2.2⟩

/-- C9 (amended) on a rank-3 tensor with `axes = [1]` and empty result vectors
passed in: dimensions 0 and 2 get start 0, step 1, end and output size equal to
the dimension size. -/
theorem C9_unsliced_dimension_default_witness :
    ((HandleSliceOpParams
        { dataShape := [10, 20, 30], starts := .constant [1], ends := .constant [5],
          steps := .none, axes := .constant [1] } emptyResults).2.startIndices[0]? =
        some (Literal 0) ∧
      (HandleSliceOpParams
        { dataShape := [10, 20, 30], starts := .constant [1], ends := .constant [5],
          steps := .none, axes := .constant [1] } emptyResults).2.stepIndices[0]? =
        some (Literal 1) ∧
      (HandleSliceOpParams
        { dataShape := [10, 20, 30], starts := .constant [1], ends := .constant [5],
          steps := .none, axes := .constant [1] } emptyResults).2.endIndices[0]? =
        some (Literal 10) ∧
      (HandleSliceOpParams
        { dataShape := [10, 20, 30], starts := .constant [1], ends := .constant [5],
          steps := .none, axes := .constant [1] } emptyResults).2.outputDims[0]? =
        some (Literal 10)) ∧
    (HandleSliceOpParams
        { dataShape := [10, 20, 30], starts := .constant [1], ends := .constant [5],
          steps := .none, axes := .constant [1] } emptyResults).2.outputDims[2]? =
      some (Literal 30) :=
  ⟨C9_unsliced_dimension_default
      { dataShape := [10, 20, 30], starts := .constant [1], ends := .constant [5],
        steps := .none, axes := .constant [1] } emptyResults _ [1] rfl
      (Prod.ext (by decide) rfl) 0 (by decide) (by decide) (by decide),
    (C9_unsliced_dimension_default
      { dataShape := [10, 20, 30], starts := .constant [1], ends := .constant [5],
        steps := .none, axes := .constant [1] } emptyResults _ [1] rfl
      (Prod.ext (by decide) rfl) 2 (by decide) (by decide) (by decide)).2.2.2⟩

/-- C10. Results are keyed by the logical dimension: on success, for every
slot `i` whose normalized axis `axes[i]` occurs only once in the axes list, the
entries at position `axes[i]` of the four result vectors are the start, end and
output size computed from `starts[i]`, `ends[i]`, `steps[i]` and the size of
dimension `axes[i]`, the step entry is the resolved `steps[i]` itself, and the
defaulting loop leaves these four entries as the per-axis loop wrote them. -/
theorem C10_results_keyed_by_dimension (op : ONNXSliceOp) (r res : SliceResults)
    (axes : List Int) (hax : axesIntLit op = .ok axes)
    (hres : HandleSliceOpParams op r = (.success, res))
    (i : Nat) (hi : i < axes.length) (honce : axes.count (axes.get ⟨i, hi⟩) = 1) :
    (res.startIndices[(axes.get ⟨i, hi⟩).toNat]? =
        some (sliceAxis (CreateSymbolIndexFromArrayAtIndex op.starts i)
          (CreateSymbolIndexFromArrayAtIndex op.ends i)
          (CreateSymbolIndexFromArrayAtIndexDefault op.steps i 1)
          (CreateDimIndexFromMemref op.dataShape (axes.get ⟨i, hi⟩).toNat)).startFinal ∧
      res.endIndices[(axes.get ⟨i, hi⟩).toNat]? =
        some (sliceAxis (CreateSymbolIndexFromArrayAtIndex op.starts i)
          (CreateSymbolIndexFromArrayAtIndex op.ends i)
          (CreateSymbolIndexFromArrayAtIndexDefault op.steps i 1)
          (CreateDimIndexFromMemref op.dataShape (axes.get ⟨i, hi⟩).toNat)).endFinal ∧
      res.stepIndices[(axes.get ⟨i, hi⟩).toNat]? =
        some (CreateSymbolIndexFromArrayAtIndexDefault op.steps i 1) ∧
      res.outputDims[(axes.get ⟨i, hi⟩).toNat]? =
        some (sliceAxis (CreateSymbolIndexFromArrayAtIndex op.starts i)
          (CreateSymbolIndexFromArrayAtIndex op.ends i)
          (CreateSymbolIndexFromArrayAtIndexDefault op.steps i 1)
          (CreateDimIndexFromMemref op.dataShape (axes.get ⟨i, hi⟩).toNat)).dimOutputFinal) ∧
    res.record (axes.get ⟨i, hi⟩).toNat =
      (sliceLoop op 0 axes (resizeResults r op.dataShape.length)).2.record
        (axes.get ⟨i, hi⟩).toNat := by
  have hlast : ∀ k (hk : k < axes.length), i < k →
      (axes.get ⟨k, hk⟩).toNat ≠ (axes.get ⟨i, hi⟩).toNat := by
    intro k hk hik heq
    have hrk := axesIntLit_range op axes hax _ (List.get_mem axes k hk)
    have hri := axesIntLit_range op axes hax _ (List.get_mem axes i hi)
    have hval : axes.get ⟨k, hk⟩ = axes.get ⟨i, hi⟩ := by omega
    have hsplit : axes = axes.take i ++ axes.get ⟨i, hi⟩ :: axes.drop (i + 1) := by
      rw [List.get_eq_getElem, ← List.drop_eq_getElem_cons, List.take_append_drop]
    have hmem : axes.get ⟨i, hi⟩ ∈ axes.drop (i + 1) := by
      rw [← hval, List.get_eq_getElem]
      have hk3 : k - (i + 1) < (axes.drop (i + 1)).length := by
        rw [List.length_drop]; omega
      have := List.getElem_mem (l := axes.drop (i + 1)) hk3
      rw [List.getElem_drop] at this
      have hidx : i + 1 + (k - (i + 1)) = k := by omega
      simpa [hidx] using this
    have hpos := List.count_pos_iff.mpr hmem
    have hc := congrArg (List.count (axes.get ⟨i, hi⟩)) hsplit
    rw [List.count_append, List.count_cons_self] at hc
    omega
  have h := HandleSliceOpParams_record_slot op r res axes hax hres i hi hlast
  refine ⟨(record_eq_iff res _ _ _ _ _).mp h, ?_⟩
  obtain ⟨r1, hloop, hsized, hr1⟩ := HandleSliceOpParams_success_split op r res axes hax hres
  have hri := axesIntLit_range op axes hax _ (List.get_mem axes i hi)
  rw [hloop, h]
  exact (sliceLoop_record_slot op _ r1 axes _ (resize_sized r op.dataShape.length) hloop
    i hi (by omega) hlast).symm

/-- C10 on a rank-3 tensor with `axes = [2, 0]`: slot 0 is saved at logical
dimension 2 and slot 1 at logical dimension 0. -/
theorem C10_results_keyed_by_dimension_witness :
    (HandleSliceOpParams
        { dataShape := [10, 20, 30], starts := .constant [1, 2], ends := .constant [25, 9],
          steps := .constant [3, 1], axes := .constant [2, 0] } emptyResults).2.outputDims[2]? =
      some (Literal 8) ∧
    (HandleSliceOpParams
        { dataShape := [10, 20, 30], starts := .constant [1, 2], ends := .constant [25, 9],
          steps := .constant [3, 1], axes := .constant [2, 0] } emptyResults).2.stepIndices[0]? =
      some (Literal 1) :=
  ⟨(C10_results_keyed_by_dimension
      { dataShape := [10, 20, 30], starts := .constant [1, 2], ends := .constant [25, 9],
        steps := .constant [3, 1], axes := .constant [2, 0] } emptyResults _ [2, 0] rfl
      (Prod.ext (by decide) rfl) 0 (by decide) (by decide)).1.2.2.2,
    (C10_results_keyed_by_dimension
      { dataShape := [10, 20, 30], starts := .constant [1, 2], ends := .constant [25, 9],
        steps := .constant [3, 1], axes := .constant [2, 0] } emptyResults _ [2, 0] rfl
      (Prod.ext (by decide) rfl) 1 (by decide) (by decide)).1.2.2.1⟩

/-! ## Saturated ends -/

theorem ceilDivInt_one (a : Int) : ceilDivInt a 1 = a := by
  unfold ceilDivInt
  simp

theorem ceilDivInt_neg_one (a : Int) : ceilDivInt a (-1) = -a := by
  unfold ceilDivInt
  simp

/-- C11, refuted as stated: the output size is not the dimension size minus
the start as given.  With dimension size 10, end `INT32_MAX` and step 1, the
start -3 wraps to 7 and gives the output size 3 (not 13), and the start 20 is
clamped to 10 and gives the output size 0 (not -10). -/
theorem C11_counterexample :
    ((sliceAxis (Literal (-3)) (Literal 2147483647) (Literal 1) (Literal 10)).dimOutputFinal =
        Literal 3 ∧
      (sliceAxis (Literal (-3)) (Literal 2147483647) (Literal 1) (Literal 10)).dimOutputFinal ≠
        Literal (10 - (-3))) ∧
    ((sliceAxis (Literal 20) (Literal 2147483647) (Literal 1) (Literal 10)).dimOutputFinal =
        Literal 0 ∧
      (sliceAxis (Literal 20) (Literal 2147483647) (Literal 1) (Literal 10)).dimOutputFinal ≠
        Literal (10 - 20)) := by
  have h1 : (sliceAxis (Literal (-3)) (Literal 2147483647) (Literal 1)
      (Literal 10)).dimOutputFinal = Literal 3 := by
    rw [sliceAxis_dimOutputFinal_literal _ _ _ _ (by decide) (by decide) (by decide)
      (by decide)]
    decide
  have h2 : (sliceAxis (Literal 20) (Literal 2147483647) (Literal 1)
      (Literal 10)).dimOutputFinal = Literal 0 := by
    rw [sliceAxis_dimOutputFinal_literal _ _ _ _ (by decide) (by decide) (by decide)
      (by decide)]
    decide
  refine ⟨⟨h1, ?_⟩, ⟨h2, ?_⟩⟩
  · rw [h1]; decide
  · rw [h2]; decide

/-- C11, amended. For a literal dimension size `d ≥ 0`, a literal start and a
literal end at or above `INT32_MAX`, with step 1 the resolved end is `d` and
the output size is `d` minus the resolved start; it is `d` minus the start
itself whenever `0 ≤ start ≤ d`. -/
theorem C11_infinite_end_forward (s e d : Int)
    (hs : isInt64 s) (he : isInt64 e) (hd : isInt64 d) (hd0 : 0 ≤ d)
    (hinf : 2147483647 ≤ e) :
    (sliceAxis (Literal s) (Literal e) (Literal 1) (Literal d)).endFinal = Literal d ∧
    (sliceAxis (Literal s) (Literal e) (Literal 1) (Literal d)).startFinal =
      Literal (min (max (if s < 0 then s + d else s) 0) d) ∧
    (sliceAxis (Literal s) (Literal e) (Literal 1) (Literal d)).dimOutputFinal =
      Literal (d - min (max (if s < 0 then s + d else s) 0) d) ∧
    (0 ≤ s → s ≤ d →
      (sliceAxis (Literal s) (Literal e) (Literal 1) (Literal d)).dimOutputFinal =
        Literal (d - s)) := by
  have hE : (sliceAxis (Literal s) (Literal e) (Literal 1) (Literal d)).endFinal =
      Literal d := by
    rw [sliceAxis_endFinal_literal s e 1 d he hd hd0]
    congr 1
    rw [if_neg (by omega), if_pos (by omega), if_neg (by decide)]
    rw [max_eq_left hd0, min_self]
  have hS : (sliceAxis (Literal s) (Literal e) (Literal 1) (Literal d)).startFinal =
      Literal (min (max (if s < 0 then s + d else s) 0) d) := by
    rw [sliceAxis_startFinal_literal s e 1 d hs hd hd0]
    congr 1
  have hO : (sliceAxis (Literal s) (Literal e) (Literal 1) (Literal d)).dimOutputFinal =
      Literal (d - min (max (if s < 0 then s + d else s) 0) d) := by
    have hdiff : -(2 ^ 63) < d - min (max (if s < 0 then s + d else s) 0) d ∧
        d - min (max (if s < 0 then s + d else s) 0) d < 2 ^ 63 := by
      unfold isInt64 at hd
      simp only [min_def, max_def]
      split_ifs <;> constructor <;> omega
    rw [sliceAxis_dimOutputFinal_of_literal _ _ 1 d _ _ hdiff hS hE, ceilDivInt_one]
    congr 1
    apply max_eq_right
    have := min_le_right (max (if s < 0 then s + d else s) 0) d
    omega
  refine ⟨hE, hS, hO, ?_⟩
  intro h0 h1
  rw [hO]
  congr 2
  rw [if_neg (by omega), max_eq_left h0, min_eq_left h1]

/-- C11 (amended) at dimension size 10, start 4, end `INT32_MAX`, step 1: the
resolved end is 10 and the output size is 6. -/
theorem C11_infinite_end_forward_witness :
    (sliceAxis (Literal 4) (Literal 2147483647) (Literal 1) (Literal 10)).endFinal =
      Literal 10 ∧
    (sliceAxis (Literal 4) (Literal 2147483647) (Literal 1) (Literal 10)).dimOutputFinal =
      Literal 6 :=
  have h := C11_infinite_end_forward 4 2147483647 10 (by decide) (by decide) (by decide)
    (by decide) (by decide)
  ⟨h.1, h.2.2.2 (by decide) (by decide)⟩

/-- C12. For a literal dimension size `d ≥ 1`, a literal start `s` with
`0 ≤ s ≤ d - 1` and a literal end at or below `INT32_MIN`, with step -1 the
resolved end is -1 and the output size is `s + 1`. -/
theorem C12_infinite_end_backward (s e d : Int)
    (he : isInt64 e) (hd : isInt64 d) (hd1 : 1 ≤ d) (hs0 : 0 ≤ s) (hs1 : s ≤ d - 1)
    (hinf : e ≤ -2147483648) :
    (sliceAxis (Literal s) (Literal e) (Literal (-1)) (Literal d)).endFinal = Literal (-1) ∧
    (sliceAxis (Literal s) (Literal e) (Literal (-1)) (Literal d)).dimOutputFinal =
      Literal (s + 1) := by
  have hs : isInt64 s := by unfold isInt64 at *; omega
  have hE : (sliceAxis (Literal s) (Literal e) (Literal (-1)) (Literal d)).endFinal =
      Literal (-1) := by
    rw [sliceAxis_endFinal_literal s e (-1) d he hd (by omega)]
    congr 1
    rw [if_pos hinf, if_pos (by decide), max_self, min_eq_left (by omega)]
  have hS : (sliceAxis (Literal s) (Literal e) (Literal (-1)) (Literal d)).startFinal =
      Literal s := by
    rw [sliceAxis_startFinal_literal s e (-1) d hs hd (by omega)]
    congr 1
    rw [if_neg (by omega), if_pos (by decide), max_eq_left hs0, min_eq_left hs1]
  refine ⟨hE, ?_⟩
  rw [sliceAxis_dimOutputFinal_of_literal _ _ (-1) d s (-1)
    (by unfold isInt64 at *; constructor <;> omega) hS hE, ceilDivInt_neg_one]
  congr 1
  rw [max_eq_right (by omega)]
  omega

/-- C12 at dimension size 10, start 5, end `INT32_MIN`, step -1: the resolved
end is -1 and the output size is 6. -/
theorem C12_infinite_end_backward_witness :
    (sliceAxis (Literal 5) (Literal (-2147483648)) (Literal (-1)) (Literal 10)).endFinal =
      Literal (-1) ∧
    (sliceAxis (Literal 5) (Literal (-2147483648)) (Literal (-1)) (Literal 10)).dimOutputFinal =
      Literal 6 :=
  C12_infinite_end_backward 5 (-2147483648) 10 (by decide) (by decide) (by decide)
    (by decide) (by decide) (by decide)

/-! ## Invariants of a successful call -/

/-- A successful call could read its axes. -/
theorem HandleSliceOpParams_success_axes (op : ONNXSliceOp) (r res : SliceResults)
    (hres : HandleSliceOpParams op r = (.success, res)) :
    ∃ axes, axesIntLit op = .ok axes := by
  cases hax : axesIntLit op with
  | ok axes => exact ⟨axes, rfl⟩
  | error msg =>
    rw [HandleSliceOpParams_axes_error op r msg hax] at hres
    cases hres

/-- Among the slots that name a logical dimension there is a last one. -/
theorem exists_last_axis (j : Nat) (axes : List Int) (h : ∃ a ∈ axes, a.toNat = j) :
    ∃ (i : Nat) (hi : i < axes.length), (axes.get ⟨i, hi⟩).toNat = j ∧
      ∀ k (hk : k < axes.length), i < k → (axes.get ⟨k, hk⟩).toNat ≠ j := by
  induction axes with
  | nil => simp at h
  | cons a rest ih =>
    by_cases hrest : ∃ b ∈ rest, b.toNat = j
    · obtain ⟨i, hi, h1, h2⟩ := ih hrest
      refine ⟨i + 1, by simpa using hi, by simpa using h1, ?_⟩
      intro k hk hik
      cases k with
      | zero => omega
      | succ k => simpa using h2 k (by simpa using hk) (by omega)
    · have ha : a.toNat = j := by
        obtain ⟨b, hb, hbj⟩ := h
        rcases List.mem_cons.mp hb with rfl | hb
        · exact hbj
        · exact absurd ⟨b, hb, hbj⟩ hrest
      refine ⟨0, by simp, by simpa using ha, ?_⟩
      intro k hk hik
      cases k with
      | zero => omega
      | succ k =>
        intro hkj
        apply hrest
        refine ⟨rest.get ⟨k, by simpa using hk⟩, List.get_mem _ _ _, ?_⟩
        simpa using hkj

/-- An entry of a resized vector, as an optional value. -/
theorem resize_getElem? (v : List IndexExpr) (n j : Nat) (hj : j < n) :
    (resize v n)[j]? = some (v.getD j Undefined) := by
  have h1 := resize_getD v n j hj
  have h2 : j < (resize v n).length := by rw [resize_length]; exact hj
  rw [List.getD_eq_getElem?_getD, List.getElem?_eq_getElem h2, Option.getD_some] at h1
  rw [List.getElem?_eq_getElem h2, h1]

/-- The step entry of a record within the vectors is present, and it is the
entry the defaulting loop tests. -/
theorem record_step_of_sized (r : SliceResults) (n j : Nat) (hr : r.sized n) (hj : j < n) :
    r.stepIndices[j]? = some (r.stepIndices.getD j Undefined) := by
  have h2 : j < r.stepIndices.length := by unfold SliceResults.sized at hr; omega
  rw [List.getD_eq_getElem?_getD, List.getElem?_eq_getElem h2, Option.getD_some]

/-- After a successful call every step entry below `dataRank` is defined. -/
theorem HandleSliceOpParams_step_defined (op : ONNXSliceOp) (r res : SliceResults)
    (hres : HandleSliceOpParams op r = (.success, res)) (j : Nat)
    (hj : j < op.dataShape.length) :
    (res.stepIndices.getD j Undefined).IsUndefined = false := by
  obtain ⟨axes, hax⟩ := HandleSliceOpParams_success_axes op r res hres
  obtain ⟨r1, hloop, hsized, rfl⟩ := HandleSliceOpParams_success_split op r res axes hax hres
  have h := defaultPass_record op r1 hsized j hj
  rw [getD_step_eq_record (defaultPass op r1), h]
  by_cases hu : (r1.stepIndices.getD j Undefined).IsUndefined = true
  · rw [if_pos hu]
    rfl
  · rw [if_neg hu, ← getD_step_eq_record]
    simpa using hu

/-- A successful call leaves four vectors of `dataRank` entries. -/
theorem HandleSliceOpParams_sized (op : ONNXSliceOp) (r res : SliceResults)
    (hres : HandleSliceOpParams op r = (.success, res)) : res.sized op.dataShape.length := by
  obtain ⟨axes, hax⟩ := HandleSliceOpParams_success_axes op r res hres
  obtain ⟨r1, hloop, hsized, rfl⟩ := HandleSliceOpParams_success_split op r res axes hax hres
  exact defaultPass_sized op r1 hsized

/-- After a successful call, the record of a logical dimension that some axis
names is the record saved by the last slot naming it. -/
theorem HandleSliceOpParams_record_named (op : ONNXSliceOp) (r res : SliceResults)
    (axes : List Int) (hax : axesIntLit op = .ok axes)
    (hres : HandleSliceOpParams op r = (.success, res))
    (j : Nat) (hnamed : ∃ a ∈ axes, a.toNat = j) :
    ∃ (i : Nat) (hi : i < axes.length), (axes.get ⟨i, hi⟩).toNat = j ∧
      (∀ k (hk : k < axes.length), i < k → (axes.get ⟨k, hk⟩).toNat ≠ j) ∧
      res.record j = slotRecord op i j := by
  obtain ⟨i, hi, h1, h2⟩ := exists_last_axis j axes hnamed
  refine ⟨i, hi, h1, h2, ?_⟩
  have h := HandleSliceOpParams_record_slot op r res axes hax hres i hi
    (fun k hk hik => by rw [h1]; exact h2 k hk hik)
  rwa [h1] at h

/-- C13, refuted as stated: the sizes and the absence of `Undefined` steps
hold, but not every dimension was resolved by the per-axis loop or filled by
the defaulting loop.  On a rank-3 tensor with `axes = [1]` and `steps = [3]`,
when the caller's step vector already holds the defined entry 5 at position 0,
the call succeeds and dimension 0, which no axis names, keeps the step 5: it
is not the literal 1 of the defaulting loop (its start is still `Undefined`)
and it is not the step of any slot. -/
theorem C13_counterexample :
    HandleSliceOpParams
        { dataShape := [10, 20, 30], starts := .constant [2], ends := .constant [8],
          steps := .constant [3], axes := .constant [1] }
        { startIndices := [], endIndices := [], stepIndices := [Literal 5],
          outputDims := [] } =
      (.success,
        { startIndices := [Undefined, Literal 2, Literal 0]
          endIndices := [Undefined, Literal 8, Literal 30]
          stepIndices := [Literal 5, Literal 3, Literal 1]
          outputDims := [Undefined, Literal 2, Literal 30] }) ∧
    axesIntLit
        { dataShape := [10, 20, 30], starts := .constant [2], ends := .constant [8],
          steps := .constant [3], axes := .constant [1] } = .ok [1] ∧
    Literal 5 ≠ Literal 1 ∧
    ∀ i, i < sliceRank
        { dataShape := [10, 20, 30], starts := .constant [2], ends := .constant [8],
          steps := .constant [3], axes := .constant [1] } →
      CreateSymbolIndexFromArrayAtIndexDefault (.constant [3]) i 1 ≠ Literal 5 :=
  ⟨by decide, rfl, by decide, by decide⟩

/-- C13, amended. On every successful return each of the four result vectors
has exactly `dataRank` entries and no entry of the step vector is `Undefined`.
Each step entry is the step of a slot of the per-axis loop (checked to be
defined), or the literal 1 set by the defaulting loop, or a defined entry that
the caller's step vector already held at that position (which cannot occur
when the vectors are passed in empty). -/
theorem C13_result_invariant (op : ONNXSliceOp) (r res : SliceResults)
    (hres : HandleSliceOpParams op r = (.success, res)) :
    (res.startIndices.length = op.dataShape.length ∧
      res.endIndices.length = op.dataShape.length ∧
      res.stepIndices.length = op.dataShape.length ∧
      res.outputDims.length = op.dataShape.length) ∧
    (∀ x ∈ res.stepIndices, x.IsUndefined = false) ∧
    (∀ j, j < op.dataShape.length →
      (∃ i, i < sliceRank op ∧
        (CreateSymbolIndexFromArrayAtIndexDefault op.steps i 1).IsUndefined = false ∧
        res.stepIndices[j]? = some (CreateSymbolIndexFromArrayAtIndexDefault op.steps i 1)) ∨
      res.stepIndices[j]? = some (Literal 1) ∨
      ((r.stepIndices.getD j Undefined).IsUndefined = false ∧
        res.stepIndices[j]? = some (r.stepIndices.getD j Undefined))) := by
  have hsized := HandleSliceOpParams_sized op r res hres
  refine ⟨hsized, ?_, ?_⟩
  · intro x hx
    obtain ⟨j, hj, rfl⟩ := List.getElem_of_mem hx
    have hj2 : j < op.dataShape.length := by
      unfold SliceResults.sized at hsized; omega
    have h := HandleSliceOpParams_step_defined op r res hres j hj2
    rwa [List.getD_eq_getElem?_getD, List.getElem?_eq_getElem hj, Option.getD_some] at h
  · intro j hj
    obtain ⟨axes, hax⟩ := HandleSliceOpParams_success_axes op r res hres
    have hrank : sliceRank op = axes.length := by unfold sliceRank; rw [hax]
    by_cases hnamed : ∃ a ∈ axes, a.toNat = j
    · obtain ⟨i, hi, _, _, hrec⟩ := HandleSliceOpParams_record_named op r res axes hax hres j
        hnamed
      left
      have hok := (sliceLoop_success_iff op axes 0 (resizeResults r op.dataShape.length)).mp
        (by rw [← HandleSliceOpParams_success_iff op r axes hax, hres]) i hi
      rw [Nat.zero_add] at hok
      refine ⟨i, by rw [hrank]; exact hi, hok.2.2.1, ?_⟩
      have := congrArg (fun x => x.2.2.1) hrec
      simpa [SliceResults.record, slotRecord] using this
    · have hne : ∀ a ∈ axes, a.toNat ≠ j := fun a ha h => hnamed ⟨a, ha, h⟩
      right
      by_cases hu : (r.stepIndices.getD j Undefined).IsUndefined = true
      · left
        have hrec := HandleSliceOpParams_record_default op r res axes hax hres j hj hne hu
        have := congrArg (fun x => x.2.2.1) hrec
        simpa [SliceResults.record, defaultRecord, CreateLiteralIndex] using this
      · right
        have hu2 : (r.stepIndices.getD j Undefined).IsUndefined = false := by simpa using hu
        refine ⟨hu2, ?_⟩
        have hrec := HandleSliceOpParams_record_stale op r res axes hax hres j hj hne hu2
        have h3 := congrArg (fun x => x.2.2.1) hrec
        simp only [SliceResults.record, resizeResults] at h3
        rw [h3, resize_getElem? _ _ _ hj]

/-- C13 (amended) on a rank-3 tensor with `axes = [1]`: the call succeeds and
leaves a step vector of three defined entries. -/
theorem C13_result_invariant_witness :
    (HandleSliceOpParams
        { dataShape := [10, 20, 30], starts := .constant [1], ends := .runtime 7 true,
          steps := .none, axes := .constant [1] } emptyResults).2.stepIndices.length = 3 ∧
    ∀ x ∈ (HandleSliceOpParams
        { dataShape := [10, 20, 30], starts := .constant [1], ends := .runtime 7 true,
          steps := .none, axes := .constant [1] } emptyResults).2.stepIndices,
      x.IsUndefined = false :=
  have h := C13_result_invariant
    { dataShape := [10, 20, 30], starts := .constant [1], ends := .runtime 7 true,
      steps := .none, axes := .constant [1] } emptyResults _ (Prod.ext (by decide) rfl)
  ⟨h.1.2.2.1, h.2.1⟩

/-! ## Folding and symbol preservation through the resolver -/

/-- The resolved start does not read the end operand. -/
theorem sliceAxis_startFinal_indep (a b b2 c d : IndexExpr) :
    (sliceAxis a b c d).startFinal = (sliceAxis a b2 c d).startFinal := rfl

/-- The resolved end does not read the start operand. -/
theorem sliceAxis_endFinal_indep (a a2 b c d : IndexExpr) :
    (sliceAxis a b c d).endFinal = (sliceAxis a2 b c d).endFinal := rfl

/-- C14. For every sliced axis, if the start, the non-zero step and the
dimension size are literal, the resolved start is a literal, whatever the end
operand is; if the end is literal too, the resolved end and the output size
are literals as well.  Each value is the one of plain integer arithmetic:
negative wrap, clamping, and the exact ceiling of the rational quotient. -/
theorem C14_literal_folding (s st d : Int)
    (hs : isInt64 s) (hd : isInt64 d) (hd0 : 0 ≤ d) (hst0 : st ≠ 0) :
    (∀ endInput : IndexExpr,
      (sliceAxis (Literal s) endInput (Literal st) (Literal d)).startFinal =
        Literal (min (max (if s < 0 then s + d else s) 0) (if st < 0 then d - 1 else d))) ∧
    (∀ e : Int, isInt64 e →
      (sliceAxis (Literal s) (Literal e) (Literal st) (Literal d)).endFinal =
        Literal (min (max
          (if e ≤ -2147483648 then -1 else if e ≥ 2147483647 then d
            else if e < 0 then e + d else e)
          (if st < 0 then -1 else 0)) d) ∧
      (sliceAxis (Literal s) (Literal e) (Literal st) (Literal d)).dimOutputFinal =
        Literal (max 0 ⌈((min (max
          (if e ≤ -2147483648 then -1 else if e ≥ 2147483647 then d
            else if e < 0 then e + d else e)
          (if st < 0 then -1 else 0)) d -
          min (max (if s < 0 then s + d else s) 0) (if st < 0 then d - 1 else d) : Int) : ℚ) /
            (st : ℚ)⌉)) := by
  constructor
  · intro endInput
    rw [sliceAxis_startFinal_indep (Literal s) endInput (Literal 0)]
    exact sliceAxis_startFinal_literal s 0 st d hs hd hd0
  · intro e he
    refine ⟨sliceAxis_endFinal_literal s e st d he hd hd0, ?_⟩
    rw [sliceAxis_dimOutputFinal_literal s e st d hs he hd hd0, ceilDivInt_eq_ceil _ _ hst0]

/-- C14 at dimension size 10, start -3, step 2: the resolved start is the
literal 7 also for a run-time end, and with the literal end 9 the resolved end
and the output size are the literals 9 and 1. -/
theorem C14_literal_folding_witness :
    (sliceAxis (Literal (-3)) (SymbolArrayElem 0 0) (Literal 2) (Literal 10)).startFinal =
      Literal 7 ∧
    (sliceAxis (Literal (-3)) (Literal 9) (Literal 2) (Literal 10)).endFinal = Literal 9 ∧
    (sliceAxis (Literal (-3)) (Literal 9) (Literal 2) (Literal 10)).dimOutputFinal =
      Literal 1 := by
  have h := C14_literal_folding (-3) 2 10 (by decide) (by decide) (by decide) (by decide)
  refine ⟨h.1 _, (h.2 9 (by decide)).1, ?_⟩
  rw [(h.2 9 (by decide)).2]
  norm_num

/-- A non-literal compared operand defers the conditional. -/
theorem Select_not_literal (c : IndexExpr) (p : CmpIPredicate) (pivot : Int) (t f : IndexExpr)
    (h : c.IsLiteral = false) : (IndexExpr.Select c p pivot t f).IsLiteral = false := by
  cases c <;> first | rfl | simp [IsLiteral] at h

theorem Sub_not_literal (a b : IndexExpr) (h : a.IsLiteral = false ∨ b.IsLiteral = false) :
    (IndexExpr.Sub a b).IsLiteral = false := by
  unfold IndexExpr.Sub
  split
  · simp [IsLiteral] at h
  · rfl

theorem Clamp_not_literal (v lo hi : IndexExpr)
    (h : v.IsLiteral = false ∨ lo.IsLiteral = false ∨ hi.IsLiteral = false) :
    (IndexExpr.Clamp v lo hi).IsLiteral = false := by
  unfold IndexExpr.Clamp
  split
  · simp [IsLiteral] at h
  · rfl

theorem CeilDivBy_not_literal (a b : IndexExpr)
    (h : a.IsLiteral = false ∨ b.IsLiteral = false) :
    (IndexExpr.CeilDivBy a b).IsLiteral = false := by
  unfold IndexExpr.CeilDivBy
  split
  · simp [IsLiteral] at h
  · rfl

/-- An index expression is a literal or it is not. -/
theorem literal_or_not (x : IndexExpr) : (∃ v, x = Literal v) ∨ x.IsLiteral = false := by
  cases x <;> first | exact Or.inr rfl | exact Or.inl ⟨_, rfl⟩

theorem sliceAxis_startFinal_eq (a b c d : IndexExpr) :
    (sliceAxis a b c d).startFinal =
      IndexExpr.Select c .slt 0
        (IndexExpr.Clamp (IndexExpr.Select a .slt 0 (IndexExpr.Add a d) a) (Literal 0)
          (IndexExpr.Sub d (Literal 1)))
        (IndexExpr.Clamp (IndexExpr.Select a .slt 0 (IndexExpr.Add a d) a) (Literal 0) d) := rfl

theorem sliceAxis_endFinal_eq (a b c d : IndexExpr) :
    (sliceAxis a b c d).endFinal =
      IndexExpr.Select c .slt 0
        (IndexExpr.Clamp
          (IndexExpr.AssignIf
            (IndexExpr.AssignIf (IndexExpr.Select b .slt 0 (IndexExpr.Add b d) b) b .sle negInf
              (Literal (-1)))
            b .sge posInf d)
          (Literal (-1)) d)
        (IndexExpr.Clamp
          (IndexExpr.AssignIf
            (IndexExpr.AssignIf (IndexExpr.Select b .slt 0 (IndexExpr.Add b d) b) b .sle negInf
              (Literal (-1)))
            b .sge posInf d)
          (Literal 0) d) := rfl

/-- The resolved start is not a literal when the start, the step or the
dimension size is not. -/
theorem sliceAxis_startFinal_not_literal (a b c d : IndexExpr)
    (h : a.IsLiteral = false ∨ c.IsLiteral = false ∨ d.IsLiteral = false) :
    (sliceAxis a b c d).startFinal.IsLiteral = false := by
  rw [sliceAxis_startFinal_eq]
  rcases literal_or_not c with ⟨st, rfl⟩ | hc
  · have h2 : a.IsLiteral = false ∨ d.IsLiteral = false := by
      rcases h with h | h | h
      · exact Or.inl h
      · simp [IsLiteral] at h
      · exact Or.inr h
    rw [Select_literal]
    have hneg : (IndexExpr.Clamp (IndexExpr.Select a .slt 0 (IndexExpr.Add a d) a) (Literal 0)
        (IndexExpr.Sub d (Literal 1))).IsLiteral = false := by
      rcases h2 with h2 | h2
      · exact Clamp_not_literal _ _ _ (Or.inl (Select_not_literal _ _ _ _ _ h2))
      · exact Clamp_not_literal _ _ _ (Or.inr (Or.inr (Sub_not_literal _ _ (Or.inl h2))))
    have hpos : (IndexExpr.Clamp (IndexExpr.Select a .slt 0 (IndexExpr.Add a d) a) (Literal 0)
        d).IsLiteral = false := by
      rcases h2 with h2 | h2
      · exact Clamp_not_literal _ _ _ (Or.inl (Select_not_literal _ _ _ _ _ h2))
      · exact Clamp_not_literal _ _ _ (Or.inr (Or.inr h2))
    split_ifs
    · exact hneg
    · exact hpos
  · exact Select_not_literal _ _ _ _ _ hc

/-- The resolved end is not a literal when the end, the step or the dimension
size is not. -/
theorem sliceAxis_endFinal_not_literal (a b c d : IndexExpr)
    (h : b.IsLiteral = false ∨ c.IsLiteral = false ∨ d.IsLiteral = false) :
    (sliceAxis a b c d).endFinal.IsLiteral = false := by
  rw [sliceAxis_endFinal_eq]
  rcases literal_or_not c with ⟨st, rfl⟩ | hc
  · have h2 : b.IsLiteral = false ∨ d.IsLiteral = false := by
      rcases h with h | h | h
      · exact Or.inl h
      · simp [IsLiteral] at h
      · exact Or.inr h
    rw [Select_literal]
    have hclamp : ∀ lo : IndexExpr, (IndexExpr.Clamp
        (IndexExpr.AssignIf
          (IndexExpr.AssignIf (IndexExpr.Select b .slt 0 (IndexExpr.Add b d) b) b .sle negInf
            (Literal (-1)))
          b .sge posInf d) lo d).IsLiteral = false := by
      intro lo
      rcases h2 with h2 | h2
      · exact Clamp_not_literal _ _ _ (Or.inl (Select_not_literal _ _ _ _ _ h2))
      · exact Clamp_not_literal _ _ _ (Or.inr (Or.inr h2))
    split_ifs
    · exact hclamp _
    · exact hclamp _
  · exact Select_not_literal _ _ _ _ _ hc

/-- C19. For every sliced axis, if at least one of the start, the end, the step
or the dimension size is not a literal, the output size stored for the axis is
not a literal; the resolved start is not a literal when the start, the step or
the dimension size is not; and the resolved end is not a literal when the end,
the step or the dimension size is not. -/
theorem C19_symbol_preservation (startInput endInput stepInput dimInput : IndexExpr) :
    ((startInput.IsLiteral = false ∨ endInput.IsLiteral = false ∨
        stepInput.IsLiteral = false ∨ dimInput.IsLiteral = false) →
      (sliceAxis startInput endInput stepInput dimInput).dimOutputFinal.IsLiteral = false) ∧
    ((startInput.IsLiteral = false ∨ stepInput.IsLiteral = false ∨
        dimInput.IsLiteral = false) →
      (sliceAxis startInput endInput stepInput dimInput).startFinal.IsLiteral = false) ∧
    ((endInput.IsLiteral = false ∨ stepInput.IsLiteral = false ∨
        dimInput.IsLiteral = false) →
      (sliceAxis startInput endInput stepInput dimInput).endFinal.IsLiteral = false) := by
  refine ⟨?_, sliceAxis_startFinal_not_literal _ _ _ _, sliceAxis_endFinal_not_literal _ _ _ _⟩
  intro h
  rw [sliceAxis_dimOutputFinal_eq]
  unfold IndexExpr.AssignIf
  apply Select_not_literal
  apply CeilDivBy_not_literal
  by_cases hc : stepInput.IsLiteral = false
  · exact Or.inr hc
  · left
    apply Sub_not_literal
    rcases h with h | h | h | h
    · exact Or.inr (sliceAxis_startFinal_not_literal _ _ _ _ (Or.inl h))
    · exact Or.inl (sliceAxis_endFinal_not_literal _ _ _ _ (Or.inl h))
    · exact absurd h hc
    · exact Or.inr (sliceAxis_startFinal_not_literal _ _ _ _ (Or.inr (Or.inr h)))

/-- C19 on an axis whose dimension size alone is known only at run time
(start 2, end 5, step 1): the resolved start, the resolved end and the output
size are all non-literal. -/
theorem C19_symbol_preservation_witness :
    (sliceAxis (Literal 2) (Literal 5) (Literal 1) (SymbolDim 0)).dimOutputFinal.IsLiteral =
      false ∧
    (sliceAxis (Literal 2) (Literal 5) (Literal 1) (SymbolDim 0)).startFinal.IsLiteral =
      false ∧
    (sliceAxis (Literal 2) (Literal 5) (Literal 1) (SymbolDim 0)).endFinal.IsLiteral = false :=
  have h := C19_symbol_preservation (Literal 2) (Literal 5) (Literal 1) (SymbolDim 0)
  ⟨h.1 (Or.inr (Or.inr (Or.inr rfl))), h.2.1 (Or.inr (Or.inr rfl)),
    h.2.2 (Or.inr (Or.inr rfl))⟩

/-! ## Indices selected on one axis -/

/-- Defining bounds of the ceiling quotient by a positive divisor. -/
theorem ceilDivInt_bounds_pos (a b : Int) (hb : 0 < b) :
    (ceilDivInt a b - 1) * b < a ∧ a ≤ ceilDivInt a b * b := by
  unfold ceilDivInt
  rw [if_pos hb]
  have h1 := Int.ediv_add_emod (-a) b
  have h2 := Int.emod_nonneg (-a) (by omega : b ≠ 0)
  have h3 := Int.emod_lt_of_pos (-a) hb
  constructor <;> nlinarith

/-- Defining bounds of the ceiling quotient by a negative divisor. -/
theorem ceilDivInt_bounds_neg (a b : Int) (hb : b < 0) :
    ceilDivInt a b * b ≤ a ∧ a < (ceilDivInt a b - 1) * b := by
  unfold ceilDivInt
  rw [if_neg (by omega)]
  have h1 := Int.ediv_add_emod a b
  have h2 := Int.emod_nonneg a (by omega : b ≠ 0)
  have h3 : a % b < -b := by
    have := Int.emod_lt_of_pos a (show 0 < -b by omega)
    rwa [Int.emod_neg] at this
  constructor <;> nlinarith

/-- Range of the resolved start of a literal axis. -/
theorem literal_start_range (s st d : Int) (hd0 : 0 ≤ d) :
    (0 < st →
      0 ≤ min (max (if s < 0 then s + d else s) 0) (if st < 0 then d - 1 else d) ∧
      min (max (if s < 0 then s + d else s) 0) (if st < 0 then d - 1 else d) ≤ d) ∧
    (st < 0 →
      -1 ≤ min (max (if s < 0 then s + d else s) 0) (if st < 0 then d - 1 else d) ∧
      min (max (if s < 0 then s + d else s) 0) (if st < 0 then d - 1 else d) ≤ d - 1 ∧
      (1 ≤ d → 0 ≤ min (max (if s < 0 then s + d else s) 0) (if st < 0 then d - 1 else d))) := by
  constructor
  · intro hst
    rw [if_neg (by omega : ¬ st < 0)]
    simp only [min_def, max_def]
    split_ifs <;> omega
  · intro hst
    rw [if_pos hst]
    simp only [min_def, max_def]
    split_ifs <;> omega

/-- Range of the resolved end of a literal axis. -/
theorem literal_end_range (e st d : Int) (hd0 : 0 ≤ d) :
    (0 < st →
      0 ≤ min (max
          (if e ≤ -2147483648 then -1 else if e ≥ 2147483647 then d
            else if e < 0 then e + d else e)
          (if st < 0 then -1 else 0)) d ∧
      min (max
          (if e ≤ -2147483648 then -1 else if e ≥ 2147483647 then d
            else if e < 0 then e + d else e)
          (if st < 0 then -1 else 0)) d ≤ d) ∧
    (st < 0 →
      -1 ≤ min (max
          (if e ≤ -2147483648 then -1 else if e ≥ 2147483647 then d
            else if e < 0 then e + d else e)
          (if st < 0 then -1 else 0)) d ∧
      min (max
          (if e ≤ -2147483648 then -1 else if e ≥ 2147483647 then d
            else if e < 0 then e + d else e)
          (if st < 0 then -1 else 0)) d ≤ d) := by
  constructor
  · intro hst
    rw [if_neg (by omega : ¬ st < 0)]
    exact ⟨le_min (le_max_right _ _) hd0, min_le_right _ _⟩
  · intro hst
    rw [if_pos hst]
    exact ⟨le_min (le_max_right _ _) (by omega), min_le_right _ _⟩

/-- In-bounds core: the indices `S + k * st` for `0 ≤ k < n` stay inside the
range delimited by the resolved start and end, and `n` steps reach the end. -/
theorem indices_in_range (S E st d : Int) (hst0 : st ≠ 0)
    (hpos : 0 < st → (0 ≤ S ∧ S ≤ d) ∧ (0 ≤ E ∧ E ≤ d))
    (hneg : st < 0 → (0 ≤ S ∧ S ≤ d - 1) ∧ (-1 ≤ E ∧ E ≤ d)) :
    (∀ k : Int, 0 ≤ k → k < max 0 (ceilDivInt (E - S) st) →
      0 ≤ S + k * st ∧ S + k * st < d) ∧
    (0 < st → E ≤ S + max 0 (ceilDivInt (E - S) st) * st) ∧
    (st < 0 → S + max 0 (ceilDivInt (E - S) st) * st ≤ E) := by
  rcases lt_or_gt_of_ne hst0 with hlt | hgt
  · obtain ⟨⟨hS0, hS1⟩, hE0, hE1⟩ := hneg hlt
    obtain ⟨hc1, hc2⟩ := ceilDivInt_bounds_neg (E - S) st hlt
    refine ⟨?_, fun h => by omega, fun _ => ?_⟩
    · intro k hk0 hkn
      have hc : k ≤ ceilDivInt (E - S) st - 1 := by
        rcases max_cases 0 (ceilDivInt (E - S) st) with ⟨h, _⟩ | ⟨h, _⟩ <;> omega
      have h1 : (ceilDivInt (E - S) st - 1) * st ≤ k * st := by nlinarith
      have h2 : k * st ≤ 0 := by nlinarith
      constructor <;> omega
    · rcases max_cases 0 (ceilDivInt (E - S) st) with ⟨h, h2⟩ | ⟨h, h2⟩
      · rw [h]
        have : 0 ≤ ceilDivInt (E - S) st * st := by nlinarith
        omega
      · rw [h]
        omega
  · obtain ⟨⟨hS0, hS1⟩, hE0, hE1⟩ := hpos hgt
    obtain ⟨hc1, hc2⟩ := ceilDivInt_bounds_pos (E - S) st hgt
    refine ⟨?_, fun _ => ?_, fun h => by omega⟩
    · intro k hk0 hkn
      have hc : k ≤ ceilDivInt (E - S) st - 1 := by
        rcases max_cases 0 (ceilDivInt (E - S) st) with ⟨h, _⟩ | ⟨h, _⟩ <;> omega
      have h1 : k * st ≤ (ceilDivInt (E - S) st - 1) * st := by nlinarith
      have h2 : 0 ≤ k * st := by nlinarith
      constructor <;> omega
    · rcases max_cases 0 (ceilDivInt (E - S) st) with ⟨h, h2⟩ | ⟨h, h2⟩
      · rw [h]
        have : ceilDivInt (E - S) st * st ≤ 0 := by nlinarith
        omega
      · rw [h]
        omega

/-- C16. For a sliced axis with literal dimension size `d ≥ 1`, literal start,
literal end and literal non-zero step, with resolved start `S`, resolved end
`E` and output size `n`, every index `S + k * step` for `0 ≤ k < n` lies in
`[0, d)`, and `n` is maximal: `S + n * step` is at or beyond `E` in the
direction of the step. -/
theorem C16_indices_in_bounds (s e st d : Int)
    (hs : isInt64 s) (he : isInt64 e) (hd : isInt64 d) (hd1 : 1 ≤ d) (hst0 : st ≠ 0) :
    ∃ S E n : Int,
      (sliceAxis (Literal s) (Literal e) (Literal st) (Literal d)).startFinal = Literal S ∧
      (sliceAxis (Literal s) (Literal e) (Literal st) (Literal d)).endFinal = Literal E ∧
      (sliceAxis (Literal s) (Literal e) (Literal st) (Literal d)).dimOutputFinal = Literal n ∧
      (∀ k : Int, 0 ≤ k → k < n → 0 ≤ S + k * st ∧ S + k * st < d) ∧
      (0 < st → E ≤ S + n * st) ∧
      (st < 0 → S + n * st ≤ E) := by
  have hd0 : 0 ≤ d := by omega
  refine ⟨_, _, _, sliceAxis_startFinal_literal s e st d hs hd hd0,
    sliceAxis_endFinal_literal s e st d he hd hd0,
    sliceAxis_dimOutputFinal_literal s e st d hs he hd hd0, ?_⟩
  have hSr := literal_start_range s st d hd0
  have hEr := literal_end_range e st d hd0
  exact indices_in_range _ _ st d hst0
    (fun h => ⟨hSr.1 h, hEr.1 h⟩)
    (fun h => ⟨⟨(hSr.2 h).2.2 hd1, (hSr.2 h).2.1⟩, hEr.2 h⟩)

/-- C16 at dimension size 10, start 100, end -100, step -3: the resolved start
is 9, the output size is 4, and the four selected indices `9 - 3 * k` are in
`[0, 10)`. -/
theorem C16_indices_in_bounds_witness :
    (sliceAxis (Literal 100) (Literal (-100)) (Literal (-3)) (Literal 10)).startFinal =
      Literal 9 ∧
    (sliceAxis (Literal 100) (Literal (-100)) (Literal (-3)) (Literal 10)).dimOutputFinal =
      Literal 4 ∧
    ∀ k : Int, 0 ≤ k → k < 4 → 0 ≤ 9 + k * (-3) ∧ 9 + k * (-3) < 10 := by
  obtain ⟨S, E, n, hS, _, hn, hk, _, _⟩ :=
    C16_indices_in_bounds 100 (-100) (-3) 10 (by decide) (by decide) (by decide) (by decide)
      (by decide)
  have hS9 : (sliceAxis (Literal 100) (Literal (-100)) (Literal (-3)) (Literal 10)).startFinal =
      Literal 9 := by decide
  have hn4 : (sliceAxis (Literal 100) (Literal (-100)) (Literal (-3))
      (Literal 10)).dimOutputFinal = Literal 4 := by
    rw [sliceAxis_dimOutputFinal_literal _ _ _ _ (by decide) (by decide) (by decide)
      (by decide)]
    decide
  have h1 : S = 9 := by rw [hS9] at hS; exact (Literal.inj hS).symm
  have h2 : n = 4 := by rw [hn4] at hn; exact (Literal.inj hn).symm
  subst h1 h2
  exact ⟨hS9, hn4, hk⟩

/-- The clipped ceiling quotient of the resolved range is at most `d`. -/
theorem max_ceilDivInt_le (S E st d : Int) (hst0 : st ≠ 0) (hd0 : 0 ≤ d)
    (hpos : 0 < st → E - S ≤ d) (hneg : st < 0 → S - E ≤ d) :
    max 0 (ceilDivInt (E - S) st) ≤ d := by
  apply max_le hd0
  by_contra hc
  have hc1 : 1 ≤ ceilDivInt (E - S) st := by omega
  rcases lt_or_gt_of_ne hst0 with hlt | hgt
  · obtain ⟨_, h2⟩ := ceilDivInt_bounds_neg (E - S) st hlt
    have h3 : (ceilDivInt (E - S) st - 1) * st ≤ -(ceilDivInt (E - S) st - 1) := by nlinarith
    have := hneg hlt
    omega
  · obtain ⟨h1, _⟩ := ceilDivInt_bounds_pos (E - S) st hgt
    have h3 : ceilDivInt (E - S) st - 1 ≤ (ceilDivInt (E - S) st - 1) * st := by nlinarith
    have := hpos hgt
    omega

/-- Bound on the output size for a non-empty dimension, where every clamp of
the resolver has ordered bounds: for a sliced axis with literal dimension size
`d ≥ 1`, literal start, literal end and literal non-zero step, the output size
`n` satisfies `0 ≤ n ≤ d`.  The empty dimension with a negative step is left
out: there the start is clamped with the bounds `[0, -1]`, and the value then
depends on the order in which `Clamp` applies its two bounds. -/
theorem sliceAxis_output_size_le_dim (s e st d : Int)
    (hs : isInt64 s) (he : isInt64 e) (hd : isInt64 d) (hd1 : 1 ≤ d) (hst0 : st ≠ 0) :
    ∃ n : Int,
      (sliceAxis (Literal s) (Literal e) (Literal st) (Literal d)).dimOutputFinal = Literal n ∧
      0 ≤ n ∧ n ≤ d := by
  have hd0 : 0 ≤ d := by omega
  refine ⟨_, sliceAxis_dimOutputFinal_literal s e st d hs he hd hd0, le_max_left _ _, ?_⟩
  have hSr := literal_start_range s st d hd0
  have hEr := literal_end_range e st d hd0
  apply max_ceilDivInt_le _ _ st d hst0 hd0
  · intro h
    have h1 := hSr.1 h
    have h2 := hEr.1 h
    omega
  · intro h
    have h1 := hSr.2 h
    have h2 := hEr.2 h
    omega

/-! ## Duplicate axes -/

/-- C18. Duplicate axes are not rejected: once the axes are read (each
normalized value in `[0, dataRank)`, repeated or not), the helper succeeds
provided every slot has defined operands and a step other than the literal 0;
the entries stored at a logical dimension are then the ones computed from the
last slot that names it, whatever the earlier slots naming it computed. -/
theorem C18_duplicate_axes_last_wins (op : ONNXSliceOp) (r : SliceResults) (axes : List Int)
    (hax : axesIntLit op = .ok axes)
    (hslots : ∀ i, i < axes.length →
      (CreateSymbolIndexFromArrayAtIndex op.starts i).IsUndefined = false ∧
      (CreateSymbolIndexFromArrayAtIndex op.ends i).IsUndefined = false ∧
      (CreateSymbolIndexFromArrayAtIndexDefault op.steps i 1).IsUndefined = false ∧
      CreateSymbolIndexFromArrayAtIndexDefault op.steps i 1 ≠ Literal 0) :
    (HandleSliceOpParams op r).1 = .success ∧
    ∀ (i : Nat) (hi : i < axes.length),
      (∀ k (hk : k < axes.length), i < k → axes.get ⟨k, hk⟩ ≠ axes.get ⟨i, hi⟩) →
      (HandleSliceOpParams op r).2.startIndices[(axes.get ⟨i, hi⟩).toNat]? =
        some (sliceAxis (CreateSymbolIndexFromArrayAtIndex op.starts i)
          (CreateSymbolIndexFromArrayAtIndex op.ends i)
          (CreateSymbolIndexFromArrayAtIndexDefault op.steps i 1)
          (CreateDimIndexFromMemref op.dataShape (axes.get ⟨i, hi⟩).toNat)).startFinal ∧
      (HandleSliceOpParams op r).2.endIndices[(axes.get ⟨i, hi⟩).toNat]? =
        some (sliceAxis (CreateSymbolIndexFromArrayAtIndex op.starts i)
          (CreateSymbolIndexFromArrayAtIndex op.ends i)
          (CreateSymbolIndexFromArrayAtIndexDefault op.steps i 1)
          (CreateDimIndexFromMemref op.dataShape (axes.get ⟨i, hi⟩).toNat)).endFinal ∧
      (HandleSliceOpParams op r).2.stepIndices[(axes.get ⟨i, hi⟩).toNat]? =
        some (CreateSymbolIndexFromArrayAtIndexDefault op.steps i 1) ∧
      (HandleSliceOpParams op r).2.outputDims[(axes.get ⟨i, hi⟩).toNat]? =
        some (sliceAxis (CreateSymbolIndexFromArrayAtIndex op.starts i)
          (CreateSymbolIndexFromArrayAtIndex op.ends i)
          (CreateSymbolIndexFromArrayAtIndexDefault op.steps i 1)
          (CreateDimIndexFromMemref op.dataShape (axes.get ⟨i, hi⟩).toNat)).dimOutputFinal := by
  have hsucc : (HandleSliceOpParams op r).1 = .success := by
    rw [HandleSliceOpParams_success_iff op r axes hax, sliceLoop_success_iff]
    intro k hk
    rw [Nat.zero_add]
    exact hslots k hk
  refine ⟨hsucc, ?_⟩
  intro i hi hlast
  have hres : HandleSliceOpParams op r = (.success, (HandleSliceOpParams op r).2) :=
    Prod.ext hsucc rfl
  have hlast2 : ∀ k (hk : k < axes.length), i < k →
      (axes.get ⟨k, hk⟩).toNat ≠ (axes.get ⟨i, hi⟩).toNat := by
    intro k hk hik heq
    have hrk := axesIntLit_range op axes hax _ (List.get_mem axes k hk)
    have hri := axesIntLit_range op axes hax _ (List.get_mem axes i hi)
    exact hlast k hk hik (by omega)
  exact (record_eq_iff _ _ _ _ _ _).mp
    (HandleSliceOpParams_record_slot op r _ axes hax hres i hi hlast2)

/-- C18 on a rank-2 tensor with `axes = [0, -2]`: both slots name dimension 0,
the call succeeds, and dimension 0 holds what the second slot computed
(start 3, end 9, step 2, output size 3). -/
theorem C18_duplicate_axes_last_wins_witness :
    (HandleSliceOpParams
        { dataShape := [10, 20], starts := .constant [1, 3], ends := .constant [5, 9],
          steps := .constant [1, 2], axes := .constant [0, -2] } emptyResults).1 = .success ∧
    (HandleSliceOpParams
        { dataShape := [10, 20], starts := .constant [1, 3], ends := .constant [5, 9],
          steps := .constant [1, 2], axes := .constant [0, -2] } emptyResults).2.startIndices[0]? =
      some (Literal 3) ∧
    (HandleSliceOpParams
        { dataShape := [10, 20], starts := .constant [1, 3], ends := .constant [5, 9],
          steps := .constant [1, 2], axes := .constant [0, -2] } emptyResults).2.outputDims[0]? =
      some (Literal 3) :=
  have h := C18_duplicate_axes_last_wins
    { dataShape := [10, 20], starts := .constant [1, 3], ends := .constant [5, 9],
      steps := .constant [1, 2], axes := .constant [0, -2] } emptyResults [0, 0] rfl
    (by decide)
  ⟨h.1, (h.2 1 (by decide) (by decide)).1, (h.2 1 (by decide) (by decide)).2.2.2⟩

/-! ## Dependence on the vectors passed in -/

/-- Whether the loop succeeds, and with which diagnostic it fails, does not
depend on the vectors. -/
theorem sliceLoop_fst_indep (op : ONNXSliceOp) (axes : List Int) :
    ∀ (i : Nat) (r s : SliceResults), (sliceLoop op i axes r).1 = (sliceLoop op i axes s).1 := by
  induction axes with
  | nil => intro i r s; rfl
  | cons a rest ih =>
    intro i r s
    have hind := sliceSlot_fst_indep op i a a r s
    rcases LogicalResult_cases (sliceSlot op i a r).1 with h | ⟨msg, h⟩
    · rw [sliceLoop_cons_success op i a rest r h,
        sliceLoop_cons_success op i a rest s (by rw [← hind]; exact h)]
      exact ih _ _ _
    · rw [sliceLoop_cons_failure op i a rest r msg h,
        sliceLoop_cons_failure op i a rest s msg (by rw [← hind]; exact h)]

/-- With readable axes the outcome of the helper is the outcome of the loop. -/
theorem HandleSliceOpParams_fst_ok (op : ONNXSliceOp) (r : SliceResults) (axes : List Int)
    (hax : axesIntLit op = .ok axes) :
    (HandleSliceOpParams op r).1 =
      (sliceLoop op 0 axes (resizeResults r op.dataShape.length)).1 := by
  rw [HandleSliceOpParams_axes_ok op r axes hax]
  split
  · next msg r1 heq => rw [heq]
  · next r1 heq => rw [heq]

/-- The outcome of the helper does not depend on the vectors passed in. -/
theorem HandleSliceOpParams_fst_indep (op : ONNXSliceOp) (r s : SliceResults) :
    (HandleSliceOpParams op r).1 = (HandleSliceOpParams op s).1 := by
  cases hax : axesIntLit op with
  | error msg =>
    rw [HandleSliceOpParams_axes_error op r msg hax, HandleSliceOpParams_axes_error op s msg hax]
  | ok axes =>
    rw [HandleSliceOpParams_fst_ok op r axes hax, HandleSliceOpParams_fst_ok op s axes hax]
    exact sliceLoop_fst_indep op axes 0 _ _

/-- Vectors of the same size with the same records are equal. -/
theorem SliceResults_eq_of_record (a b : SliceResults) (n : Nat) (ha : a.sized n)
    (hb : b.sized n) (h : ∀ j, j < n → a.record j = b.record j) : a = b := by
  unfold SliceResults.sized at ha hb
  have hext : ∀ (l1 l2 : List IndexExpr), l1.length = n → l2.length = n →
      (∀ j, j < n → l1[j]? = l2[j]?) → l1 = l2 := by
    intro l1 l2 h1 h2 hj
    apply List.ext_getElem?
    intro j
    by_cases hlt : j < n
    · exact hj j hlt
    · rw [List.getElem?_eq_none (by omega), List.getElem?_eq_none (by omega)]
  have hrec : ∀ j, j < n → a.startIndices[j]? = b.startIndices[j]? ∧
      a.endIndices[j]? = b.endIndices[j]? ∧ a.stepIndices[j]? = b.stepIndices[j]? ∧
      a.outputDims[j]? = b.outputDims[j]? := by
    intro j hj
    have := h j hj
    simpa [SliceResults.record, Prod.ext_iff] using this
  cases a
  cases b
  simp only [SliceResults.mk.injEq]
  simp only at ha hb hrec
  exact ⟨hext _ _ ha.1 hb.1 (fun j hj => (hrec j hj).1),
    hext _ _ ha.2.1 hb.2.1 (fun j hj => (hrec j hj).2.1),
    hext _ _ ha.2.2.1 hb.2.2.1 (fun j hj => (hrec j hj).2.2.1),
    hext _ _ ha.2.2.2 hb.2.2.2 (fun j hj => (hrec j hj).2.2.2)⟩

/-- C15, refuted as stated: two calls on the same operation and operand values
(rank-3 tensor, `axes = [1]`) give different result vectors when one caller
passes empty vectors and the other a step vector that already holds the
defined entry 5 at dimension 0, which no axis names. -/
theorem C15_counterexample :
    (HandleSliceOpParams
        { dataShape := [10, 20, 30], starts := .constant [2], ends := .constant [8],
          steps := .constant [3], axes := .constant [1] } emptyResults).2 =
      { startIndices := [Literal 0, Literal 2, Literal 0]
        endIndices := [Literal 10, Literal 8, Literal 30]
        stepIndices := [Literal 1, Literal 3, Literal 1]
        outputDims := [Literal 10, Literal 2, Literal 30] } ∧
    (HandleSliceOpParams
        { dataShape := [10, 20, 30], starts := .constant [2], ends := .constant [8],
          steps := .constant [3], axes := .constant [1] }
        { startIndices := [], endIndices := [], stepIndices := [Literal 5],
          outputDims := [] }).2 =
      { startIndices := [Undefined, Literal 2, Literal 0]
        endIndices := [Undefined, Literal 8, Literal 30]
        stepIndices := [Literal 5, Literal 3, Literal 1]
        outputDims := [Undefined, Literal 2, Literal 30] } ∧
    (HandleSliceOpParams
        { dataShape := [10, 20, 30], starts := .constant [2], ends := .constant [8],
          steps := .constant [3], axes := .constant [1] } emptyResults).2 ≠
      (HandleSliceOpParams
        { dataShape := [10, 20, 30], starts := .constant [2], ends := .constant [8],
          steps := .constant [3], axes := .constant [1] }
        { startIndices := [], endIndices := [], stepIndices := [Literal 5],
          outputDims := [] }).2 :=
  ⟨by decide, by decide, by decide⟩

/-- C15, amended. Two calls on the same operation and operand values report
the same outcome whatever the result vectors contained before.  When they
succeed, they produce the same four result vectors provided that before each
call the step vector held no defined entry at any dimension below `dataRank`
that no axis names (in particular when the vectors are passed in empty). -/
theorem C15_same_results (op : ONNXSliceOp) (r s : SliceResults) (axes : List Int)
    (hax : axesIntLit op = .ok axes)
    (hsucc : (HandleSliceOpParams op r).1 = .success)
    (hr : ∀ j, j < op.dataShape.length → (j : Int) ∉ axes →
      (r.stepIndices.getD j Undefined).IsUndefined = true)
    (hs : ∀ j, j < op.dataShape.length → (j : Int) ∉ axes →
      (s.stepIndices.getD j Undefined).IsUndefined = true) :
    (HandleSliceOpParams op s).1 = .success ∧
    (HandleSliceOpParams op r).2 = (HandleSliceOpParams op s).2 := by
  have hsucc2 : (HandleSliceOpParams op s).1 = .success := by
    rw [← HandleSliceOpParams_fst_indep op r s]; exact hsucc
  refine ⟨hsucc2, ?_⟩
  have h1 : HandleSliceOpParams op r = (.success, (HandleSliceOpParams op r).2) :=
    Prod.ext hsucc rfl
  have h2 : HandleSliceOpParams op s = (.success, (HandleSliceOpParams op s).2) :=
    Prod.ext hsucc2 rfl
  apply SliceResults_eq_of_record _ _ op.dataShape.length
    (HandleSliceOpParams_sized op r _ h1) (HandleSliceOpParams_sized op s _ h2)
  intro j hj
  by_cases hnamed : ∃ a ∈ axes, a.toNat = j
  · obtain ⟨i, hi, hij, hlast, _⟩ := HandleSliceOpParams_record_named op r _ axes hax h1 j hnamed
    have e1 := HandleSliceOpParams_record_slot op r _ axes hax h1 i hi
      (fun k hk hik => by rw [hij]; exact hlast k hk hik)
    have e2 := HandleSliceOpParams_record_slot op s _ axes hax h2 i hi
      (fun k hk hik => by rw [hij]; exact hlast k hk hik)
    rw [hij] at e1 e2
    rw [e1, e2]
  · have hne : ∀ a ∈ axes, a.toNat ≠ j := fun a ha h => hnamed ⟨a, ha, h⟩
    have hnot : (j : Int) ∉ axes := fun hmem => hne _ hmem (by simp)
    rw [HandleSliceOpParams_record_default op r _ axes hax h1 j hj hne (hr j hj hnot),
      HandleSliceOpParams_record_default op s _ axes hax h2 j hj hne (hs j hj hnot)]

/-- C15 (amended) on a rank-3 tensor with `axes = [1]`: a call from empty
vectors and a call from vectors that hold stale entries at the named dimension
1 only produce the same four result vectors. -/
theorem C15_same_results_witness :
    (HandleSliceOpParams
        { dataShape := [10, 20, 30], starts := .constant [2], ends := .constant [8],
          steps := .constant [3], axes := .constant [1] } emptyResults).2 =
      (HandleSliceOpParams
        { dataShape := [10, 20, 30], starts := .constant [2], ends := .constant [8],
          steps := .constant [3], axes := .constant [1] }
        { startIndices := [Literal 4, Literal 4], endIndices := [],
          stepIndices := [Undefined, Literal 7], outputDims := [Literal 9] }).2 :=
  (C15_same_results
    { dataShape := [10, 20, 30], starts := .constant [2], ends := .constant [8],
      steps := .constant [3], axes := .constant [1] } emptyResults
    { startIndices := [Literal 4, Literal 4], endIndices := [],
      stepIndices := [Undefined, Literal 7], outputDims := [Literal 9] } [1] rfl
    (by decide) (by decide) (by decide)).2

end OnnxSlice
